import Mathlib

/-!
Verification development for the git-commit-checker core: a shallow embedding
of the commit-message parser, validator and builder (src/validator logic),
the diff classifier (src/services diff analyzer) and the AI prompt/response
helpers, together with theorems settling the specification claims.

Strings are modelled as `List Char`.  JavaScript character classes are
modelled through the code points (`Char.toNat`) they match.
-/

namespace GitCommitChecker

/-- Code points matched by the JS whitespace class used by `trim` and by the
regex token in the header pattern: space, tab, LF, CR, VT, FF. -/
def isJsSpace (c : Char) : Bool :=
  c.toNat = 32 || c.toNat = 9 || c.toNat = 10 || c.toNat = 13 ||
  c.toNat = 11 || c.toNat = 12

/-- JS word characters (the regex word class): ASCII letters, digits, underscore. -/
def isWordChar (c : Char) : Bool :=
  (97 ≤ c.toNat && c.toNat ≤ 122) || (65 ≤ c.toNat && c.toNat ≤ 90) ||
  (48 ≤ c.toNat && c.toNat ≤ 57) || c.toNat = 95

/-- JS line terminators, the characters the regex dot does not match:
LF, CR, LINE SEPARATOR, PARAGRAPH SEPARATOR. -/
def isLineTerm (c : Char) : Bool :=
  c.toNat = 10 || c.toNat = 13 || c.toNat = 8232 || c.toNat = 8233

/-- Leading-whitespace removal, the first half of JS `trim`. -/
def dropLead (s : List Char) : List Char := s.dropWhile isJsSpace

/-- Trailing-whitespace removal, the second half of JS `trim`. -/
def dropTrail (s : List Char) : List Char :=
  (s.reverse.dropWhile isJsSpace).reverse

/-- JS `String.prototype.trim`. -/
def trimL (s : List Char) : List Char := dropTrail (dropLead s)

/-- JS `String.prototype.split` with a single-character separator. -/
def splitOnC (sep : Char) : List Char → List (List Char)
  | [] => [[]]
  | c :: cs =>
    if c = sep then [] :: splitOnC sep cs
    else
      match splitOnC sep cs with
      | [] => [[c]]
      | l :: ls => (c :: l) :: ls

/-- Splitting a string into its lines, JS `split` with a newline separator. -/
def splitLines (s : List Char) : List (List Char) := splitOnC '\n' s

/-- JS `Array.prototype.join` with a newline separator. -/
def joinLines : List (List Char) → List Char
  | [] => []
  | [l] => l
  | l :: l2 :: ls => l ++ '\n' :: joinLines (l2 :: ls)

/-- Lower-casing of one character, the ASCII fragment of JS `toLowerCase`. -/
def toLowerC (c : Char) : Char :=
  if 65 ≤ c.toNat && c.toNat ≤ 90 then Char.ofNat (c.toNat + 32) else c

/-- JS `String.prototype.toLowerCase` (ASCII fragment). -/
def toLowerL (s : List Char) : List Char := s.map toLowerC

/-- JS string truthiness of an optional string: absent and empty are falsy. -/
def truthy : Option (List Char) → Bool
  | some s => !s.isEmpty
  | none => false

/-- The `x || undefined` normalization applied to parsed body and footer. -/
def toOpt (s : List Char) : Option (List Char) :=
  if s.isEmpty then none else some s

/-! ## Data model (models/commitMessage.ts) -/

/-- Structured commit message (interface ICommitMessage). -/
structure CommitMessage where
  type : List Char
  scope : Option (List Char)
  subject : List Char
  body : Option (List Char)
  footer : Option (List Char)
  raw : List Char
deriving DecidableEq

/-- Validation verdict (interface IValidationResult). -/
structure ValidationResult where
  isValid : Bool
  errors : List (List Char)
  warnings : List (List Char)
deriving DecidableEq

/-- Resolved plugin configuration (interface IPluginConfig).  The two length
bounds are numbers in the source; they are modelled as naturals. -/
structure PluginConfig where
  types : List (List Char)
  typeDescriptions : List (List Char × List Char)
  subjectMaxLength : Nat
  subjectMinLength : Nat
  scopeRequired : Bool
  bodyRequired : Bool
deriving DecidableEq

/-- Git file record (interface IGitFileStatus); the status is one of the
characters A, M, D, R, C, U, ?. -/
structure GitFileStatus where
  path : List Char
  status : Char
  originalPath : Option (List Char)
deriving DecidableEq

/-- Staged-diff summary (interface IDiffInfo). -/
structure DiffInfo where
  stagedFiles : List GitFileStatus
  diffContent : List Char
  additions : Nat
  deletions : Nat
deriving DecidableEq

/-! ## Rules and default configuration (config/rules.ts) -/

/-- The eleven built-in commit types (DEFAULT_TYPES). -/
def defaultTypes : List (List Char) :=
  [("feat".data), ("fix".data), ("docs".data), ("style".data),
   ("refactor".data), ("perf".data), ("test".data), ("build".data),
   ("ci".data), ("chore".data), ("revert".data)]

/-- Built-in type descriptions (DEFAULT_TYPE_DESCRIPTIONS). -/
def defaultTypeDescriptions : List (List Char × List Char) :=
  [(("feat".data), ("新功能".data)), (("fix".data), ("Bug 修复".data)),
   (("docs".data), ("文档更新".data)),
   (("style".data), ("代码格式调整（不影响代码逻辑）".data)),
   (("refactor".data), ("代码重构".data)), (("perf".data), ("性能优化".data)),
   (("test".data), ("测试相关".data)),
   (("build".data), ("构建系统或外部依赖变更".data)),
   (("ci".data), ("CI 配置变更".data)), (("chore".data), ("其他杂项".data)),
   (("revert".data), ("回滚提交".data))]

/-- The built-in configuration (DEFAULT_CONFIG). -/
def defaultConfig : PluginConfig :=
  { types := defaultTypes
    typeDescriptions := defaultTypeDescriptions
    subjectMaxLength := 50
    subjectMinLength := 3
    scopeRequired := false
    bodyRequired := false }

/-- VALIDATION_RULES.TYPE_PATTERN: one or more lowercase ASCII letters. -/
def typePatternTest (t : List Char) : Bool :=
  !t.isEmpty && t.all (fun c => 97 ≤ c.toNat && c.toNat ≤ 122)

/-- VALIDATION_RULES.SCOPE_PATTERN: word characters, hyphen, slash, dot. -/
def scopePatternTest (s : List Char) : Bool :=
  !s.isEmpty && s.all (fun c => isWordChar c || c = '-' || c = '/' || c = '.')

/-- VALIDATION_RULES.SUBJECT_NO_PERIOD: the last character is not a period. -/
def subjectNoPeriodTest (s : List Char) : Bool :=
  match s.getLast? with
  | some c => c != '.'
  | none => false

/-! ## Header matching (COMMIT_MESSAGE_REGEX)

The first-line pattern is: a nonempty run of word characters, an optional
parenthesized nonempty run of non-parenthesis characters, a colon, optional
whitespace, and a nonempty remainder free of line terminators (the regex dot
excludes line terminators; when everything after the colon is whitespace the
greedy whitespace token backtracks by exactly one character). -/

/-- Matching of the subject part after the colon. -/
def matchSubject (r : List Char) : Option (List Char) :=
  let subj := r.dropWhile isJsSpace
  if subj.isEmpty then
    match r.getLast? with
    | some c => if isLineTerm c then none else some [c]
    | none => none
  else if subj.any isLineTerm then none
  else some subj

/-- Matching of the first line against COMMIT_MESSAGE_REGEX, returning the
type, optional scope and subject capture groups. -/
def matchHeader (l : List Char) :
    Option (List Char × Option (List Char) × List Char) :=
  let ty := l.takeWhile isWordChar
  if ty.isEmpty then none
  else
    match l.dropWhile isWordChar with
    | '(' :: r =>
      let sc := r.takeWhile (fun c => c != ')')
      if sc.isEmpty then none
      else
        (match r.dropWhile (fun c => c != ')') with
         | ')' :: ':' :: r3 =>
           (matchSubject r3).map (fun subj => (ty, some sc, subj))
         | _ => none)
    | ':' :: r3 => (matchSubject r3).map (fun subj => (ty, none, subj))
    | _ => none

/-! ## Parser (parseCommitMessage) -/

/-- The fixed footer keyword list. -/
def footerKeywords : List (List Char) :=
  [("BREAKING CHANGE:".data), ("Closes".data), ("Fixes".data),
   ("Refs".data), ("Issue".data)]

/-- A line whose trimmed text starts with one of the footer keywords. -/
def isFooterLine (l : List Char) : Bool :=
  footerKeywords.any (fun kw => kw.isPrefixOf (trimL l))

/-- A line that is blank after trimming. -/
def isBlankLine (l : List Char) : Bool := (trimL l).isEmpty

/-- JS Array.prototype.findIndex, as an optional index. -/
def findFirstIdx (p : List Char → Bool) : List (List Char) → Option Nat
  | [] => none
  | x :: xs => if p x then some 0 else (findFirstIdx p xs).map (· + 1)

/-- Body/footer separation over the lines after the first.  The body starts
at the first non-blank line; the footer starts at the first footer-keyword
line found from there, provided it lies strictly after the body start. -/
def parseBodyFooter (rest : List (List Char)) :
    Option (List Char) × Option (List Char) :=
  let rest2 := rest.dropWhile isBlankLine
  match findFirstIdx isFooterLine rest2 with
  | some idx =>
    if 0 < idx then
      (toOpt (trimL (joinLines (rest2.take idx))),
       toOpt (trimL (joinLines (rest2.drop idx))))
    else (if rest2.isEmpty then none else toOpt (trimL (joinLines rest2)), none)
  | none =>
    (if rest2.isEmpty then none else toOpt (trimL (joinLines rest2)), none)

/-- parseCommitMessage: trim, split into lines, match the first line against
the header pattern, then separate body and footer. -/
def parseCommitMessage (raw : List Char) : Option CommitMessage :=
  match splitLines (trimL raw) with
  | [] => none
  | l0 :: rest =>
    if l0.isEmpty then none
    else
      match matchHeader (trimL l0) with
      | none => none
      | some (ty, sc, subj) =>
        let bf := parseBodyFooter rest
        some { type := ty, scope := sc, subject := subj,
               body := bf.1, footer := bf.2, raw := raw }

/-! ## Builder (buildCommitMessage) -/

/-- buildCommitMessage: type, optional parenthesized scope, colon-space,
subject, then blank-line separated body and footer when present (JS string
truthiness: an empty optional field is dropped). -/
def buildCommitMessage (ty : List Char) (scope : Option (List Char))
    (subject : List Char) (body : Option (List Char))
    (footer : Option (List Char)) : List Char :=
  let m := ty ++ (if truthy scope then '(' :: (scope.getD [] ++ [')']) else [])
  let m := m ++ ':' :: ' ' :: subject
  let m := m ++ (if truthy body then '\n' :: '\n' :: body.getD [] else [])
  m ++ (if truthy footer then '\n' :: '\n' :: footer.getD [] else [])

/-! ## Validator (validateCommitMessage, validateType, validateSubject) -/

/-- Appending an error sets the verdict to invalid. -/
def pushError (r : ValidationResult) (e : List Char) : ValidationResult :=
  { r with isValid := false, errors := r.errors ++ [e] }

/-- Appending a warning leaves the verdict unchanged. -/
def pushWarning (r : ValidationResult) (w : List Char) : ValidationResult :=
  { r with warnings := r.warnings ++ [w] }

def emptyMsgErr : List Char := "提交信息不能为空".data

def formatErr : List Char := "提交信息格式不正确，应为: type(scope): subject".data

/-- Error text naming an invalid type and listing the allowed ones. -/
def invalidTypeErr (t : List Char) (types : List (List Char)) : List Char :=
  "无效的提交类型 \"".data ++ t ++ "\"，允许的类型: ".data ++
    List.intercalate (", ".data) types

def typeCaseErr : List Char := "提交类型必须是小写字母".data

def scopeRequiredErr : List Char := "scope 是必填项".data

def scopeFormatErr : List Char :=
  "scope 格式不正确，只允许字母、数字、下划线、连字符、斜杠和点".data

/-- Error text for an over-long subject, with actual/limit counts. -/
def subjectMaxErr (len max : Nat) : List Char :=
  "subject 长度超过限制 (".data ++ (toString len).data ++ "/".data ++
    (toString max).data ++ ")".data

/-- Error text for an under-long subject, with actual/limit counts. -/
def subjectMinErr (len min : Nat) : List Char :=
  "subject 长度不足 (".data ++ (toString len).data ++ "/".data ++
    (toString min).data ++ ")".data

def subjectPeriodWarn : List Char := "subject 不应以句号结尾".data

def bodyRequiredErr : List Char := "body 是必填项".data

def chooseTypeErr : List Char := "请选择提交类型".data

/-- Error text of validateType for a type outside the configured list. -/
def typeNotAllowedErr (t : List Char) : List Char :=
  "无效的提交类型: ".data ++ t

/-- The rule checks applied to a successfully parsed message, in source
order, threaded through the mutable result as in the source. -/
def applyChecks (parsed : CommitMessage) (config : PluginConfig)
    (r0 : ValidationResult) : ValidationResult :=
  let r := if config.types.contains parsed.type then r0
           else pushError r0 (invalidTypeErr parsed.type config.types)
  let r := if typePatternTest parsed.type then r else pushError r typeCaseErr
  let r := if config.scopeRequired && !truthy parsed.scope then
             pushError r scopeRequiredErr
           else r
  let r := if truthy parsed.scope && !scopePatternTest (parsed.scope.getD []) then
             pushError r scopeFormatErr
           else r
  let r := if config.subjectMaxLength < parsed.subject.length then
             pushError r (subjectMaxErr parsed.subject.length config.subjectMaxLength)
           else r
  let r := if parsed.subject.length < config.subjectMinLength then
             pushError r (subjectMinErr parsed.subject.length config.subjectMinLength)
           else r
  let r := if !subjectNoPeriodTest parsed.subject then
             pushWarning r subjectPeriodWarn
           else r
  if config.bodyRequired && !truthy parsed.body then pushError r bodyRequiredErr
  else r

/-- validateCommitMessage: empty input and parse failure short-circuit with a
single error; otherwise all rule checks accumulate. -/
def validateCommitMessage (message : List Char) (config : PluginConfig) :
    ValidationResult :=
  let result : ValidationResult := ⟨true, [], []⟩
  if (trimL message).isEmpty then pushError result emptyMsgErr
  else
    match parseCommitMessage message with
    | none => pushError result formatErr
    | some parsed => applyChecks parsed config result

/-- validateType: empty selection short-circuits; otherwise only list
membership is checked. -/
def validateType (ty : List Char) (config : PluginConfig) : ValidationResult :=
  let result : ValidationResult := ⟨true, [], []⟩
  if ty.isEmpty then pushError result chooseTypeErr
  else if config.types.contains ty then result
  else pushError result (typeNotAllowedErr ty)

/-- validateSubject: blank subject short-circuits; otherwise both length
bounds are checked. -/
def validateSubject (subject : List Char) (config : PluginConfig) :
    ValidationResult :=
  let result : ValidationResult := ⟨true, [], []⟩
  if (trimL subject).isEmpty then pushError result ("subject 不能为空".data)
  else
    let r := if config.subjectMaxLength < subject.length then
               pushError result (subjectMaxErr subject.length config.subjectMaxLength)
             else result
    if subject.length < config.subjectMinLength then
      pushError r (subjectMinErr subject.length config.subjectMinLength)
    else r

/-! ## Diff classifier (services diff analyzer) -/

/-- Classifier output (interface DiffAnalysis). -/
structure DiffAnalysis where
  suggestedType : List Char
  suggestedScope : Option (List Char)
  suggestedSubject : List Char
  suggestedBody : Option (List Char)
  summary : List Char
deriving DecidableEq

/-- Partition of the changed files plus the four heuristic flags
(interface FileAnalysis). -/
structure FileAnalysis where
  added : List (List Char)
  modified : List (List Char)
  deleted : List (List Char)
  hasTest : Bool
  hasDoc : Bool
  hasConfig : Bool
  hasStyle : Bool
deriving DecidableEq

/-- Occurrence of a pattern as a contiguous substring (JS regex fragment and
String.prototype.includes over our character lists). -/
def containsSub (pat : List Char) : List Char → Bool
  | [] => pat.isEmpty
  | c :: rest => pat.isPrefixOf (c :: rest) || containsSub pat rest

/-- Test-file heuristic: a .test/.spec script extension, or a test directory
segment in the path. -/
def isTestFile (p : List Char) : Bool :=
  [(".test.ts".data), (".test.js".data), (".test.tsx".data), (".test.jsx".data),
   (".spec.ts".data), (".spec.js".data), (".spec.tsx".data), (".spec.jsx".data)
  ].any (fun s => s.isSuffixOf p) ||
  [("/test/".data), ("/tests/".data), ("/__tests__/".data)
  ].any (fun s => containsSub s p)

/-- Doc-file heuristic: a documentation extension or a docs directory. -/
def isDocFile (p : List Char) : Bool :=
  [(".md".data), (".txt".data), (".rst".data)].any (fun s => s.isSuffixOf p) ||
  [("/doc/".data), ("/docs/".data)].any (fun s => containsSub s p)

/-- Config-file heuristic: a config extension, a path mentioning config, or a
leading dot. -/
def isConfigFile (p : List Char) : Bool :=
  [(".json".data), (".yaml".data), (".yml".data), (".toml".data), (".ini".data)
  ].any (fun s => s.isSuffixOf p) ||
  containsSub ("config".data) p || (".".data).isPrefixOf p

/-- Style-file heuristic: a stylesheet extension. -/
def isStyleFile (p : List Char) : Bool :=
  [(".css".data), (".scss".data), (".less".data), (".sass".data)
  ].any (fun s => s.isSuffixOf p)

/-- One step of analyzeFiles: bucket the file by change kind and update the
four heuristic flags from the lower-cased path. -/
def analyzeStep (a : FileAnalysis) (f : GitFileStatus) : FileAnalysis :=
  let low := toLowerL f.path
  let a :=
    if f.status = 'A' then { a with added := a.added ++ [f.path] }
    else if f.status = 'M' then { a with modified := a.modified ++ [f.path] }
    else if f.status = 'D' then { a with deleted := a.deleted ++ [f.path] }
    else a
  let a := if isTestFile low then { a with hasTest := true } else a
  let a := if isDocFile low then { a with hasDoc := true } else a
  let a := if isConfigFile low then { a with hasConfig := true } else a
  if isStyleFile low then { a with hasStyle := true } else a

/-- analyzeFiles: fold analyzeStep over the staged files. -/
def analyzeFiles (files : List GitFileStatus) : FileAnalysis :=
  files.foldl analyzeStep ⟨[], [], [], false, false, false, false⟩

/-- determineType: the ordered rule chain of the classifier. -/
def determineType (a : FileAnalysis) (files : List GitFileStatus) : List Char :=
  if a.hasTest && files.all (fun f => isTestFile f.path) then "test".data
  else if a.hasDoc && files.all (fun f => isDocFile f.path) then "docs".data
  else if a.hasConfig && files.all (fun f => isConfigFile f.path) then "chore".data
  else if a.hasStyle && files.all (fun f => isStyleFile f.path) then "style".data
  else if 0 < a.deleted.length && a.added.length = 0 && a.modified.length = 0 then
    "chore".data
  else if 0 < a.added.length then "feat".data
  else if 0 < a.modified.length then "fix".data
  else "chore".data

/-- DIR_TO_MODULE: the fixed directory-to-module lookup. -/
def dirToModule (d : List Char) : Option (List Char) :=
  if d = "test".data then some ("test".data)
  else if d = "tests".data then some ("test".data)
  else if d = "__tests__".data then some ("test".data)
  else if d = "docs".data then some ("docs".data)
  else if d = "config".data then some ("config".data)
  else if d = "api".data then some ("api".data)
  else if d = "components".data then some ("ui".data)
  else if d = "services".data then some ("services".data)
  else if d = "utils".data then some ("utils".data)
  else if d = "models".data then some ("models".data)
  else none

/-- The inner loop of determineScope over the directory segments of one path:
a segment that maps through the lookup contributes its module and stops the
scan; otherwise a segment that is not a generic source root contributes
itself and stops the scan; generic roots are skipped. -/
def scopeCandidate : List (List Char) → Option (List Char)
  | [] => none
  | part :: rest =>
    match dirToModule (toLowerL part) with
    | some m => some m
    | none =>
      if toLowerL part = "src".data || toLowerL part = "lib".data then
        scopeCandidate rest
      else some part

/-- Insertion into the candidate set, preserving JS Set insertion order. -/
def insertSet (s : List (List Char)) (x : List Char) : List (List Char) :=
  if s.contains x then s else s ++ [x]

/-- One file's contribution to the candidate set of determineScope. -/
def scopeStep (acc : List (List Char)) (f : GitFileStatus) : List (List Char) :=
  let parts := splitOnC '/' f.path
  if 1 < parts.length then
    match scopeCandidate parts.dropLast with
    | some d => insertSet acc d
    | none => acc
  else acc

/-- determineScope: collect per-file candidates into a set and suggest the
unique element when the set is a singleton. -/
def determineScope (files : List GitFileStatus) : Option (List Char) :=
  if files.isEmpty then none
  else
    let dirs := files.foldl scopeStep []
    if dirs.length = 1 then dirs.head? else none

/-- getFileName: the last path segment, or the whole path when it is empty. -/
def getFileName (p : List Char) : List Char :=
  match (splitOnC '/' p).getLast? with
  | some l => if l.isEmpty then p else l
  | none => p

/-- The homogeneous and mixed multi-file branches of generateSubject. -/
def generateSubjectMulti (a : FileAnalysis) : List Char :=
  if 0 < a.added.length && a.modified.length = 0 && a.deleted.length = 0 then
    if a.added.length = 1 then "add ".data ++ getFileName (a.added.headI)
    else "add ".data ++ (toString a.added.length).data ++ " files".data
  else if 0 < a.deleted.length && a.added.length = 0 && a.modified.length = 0 then
    if a.deleted.length = 1 then "remove ".data ++ getFileName (a.deleted.headI)
    else "remove ".data ++ (toString a.deleted.length).data ++ " files".data
  else if 0 < a.modified.length && a.added.length = 0 && a.deleted.length = 0 then
    if a.modified.length = 1 then "update ".data ++ getFileName (a.modified.headI)
    else "update ".data ++ (toString a.modified.length).data ++ " files".data
  else
    let changes :=
      (if 0 < a.added.length then [("+".data) ++ (toString a.added.length).data] else []) ++
      (if 0 < a.modified.length then [("~".data) ++ (toString a.modified.length).data] else []) ++
      (if 0 < a.deleted.length then [("-".data) ++ (toString a.deleted.length).data] else [])
    "update files (".data ++ List.intercalate (" ".data) changes ++ ")".data

/-- generateSubject: verb plus file name for a single file whose change kind
has a verb, otherwise the homogeneous or mixed multi-file summary. -/
def generateSubject (a : FileAnalysis) (files : List GitFileStatus) : List Char :=
  match files with
  | [f] =>
    if f.status = 'A' then "add ".data ++ getFileName f.path
    else if f.status = 'M' then "update ".data ++ getFileName f.path
    else if f.status = 'D' then "remove ".data ++ getFileName f.path
    else if f.status = 'R' then "rename ".data ++ getFileName f.path
    else generateSubjectMulti a
  | _ => generateSubjectMulti a

/-- The per-file marker used in generateBody. -/
def statusMark (s : Char) : List Char :=
  if s = 'A' then "+".data else if s = 'D' then "-".data else "*".data

/-- generateBody: absent for three or fewer files; otherwise a file list
capped at eight entries plus a statistics line. -/
def generateBody (files : List GitFileStatus) (additions deletions : Nat) :
    Option (List Char) :=
  if files.length ≤ 3 then none
  else
    let lines := ["变更文件:".data] ++
      (files.take 8).map (fun f => statusMark f.status ++ " ".data ++ f.path)
    let lines := lines ++
      (if 8 < files.length then
        [("... 还有 ".data) ++ (toString (files.length - 8)).data ++ " 个文件".data]
       else [])
    let lines := lines ++ [[], ("统计: +".data) ++ (toString additions).data ++
      " -".data ++ (toString deletions).data]
    some (joinLines lines)

/-- analyzeDiff: assemble the suggestion from the staged files and totals. -/
def analyzeDiff (diffInfo : DiffInfo) : DiffAnalysis :=
  let analysis := analyzeFiles diffInfo.stagedFiles
  { suggestedType := determineType analysis diffInfo.stagedFiles
    suggestedScope := determineScope diffInfo.stagedFiles
    suggestedSubject := generateSubject analysis diffInfo.stagedFiles
    suggestedBody := generateBody diffInfo.stagedFiles diffInfo.additions diffInfo.deletions
    summary := (toString diffInfo.stagedFiles.length).data ++ " 文件 (+".data ++
      (toString diffInfo.additions).data ++ "/-".data ++
      (toString diffInfo.deletions).data ++ ")".data }

/-! ## AI service helpers (truncateDiff, parseAIResponse) -/

/-- The truncation marker appended by truncateDiff (33 characters, leading
newline included, containing the word truncated). -/
def truncNote : List Char := "\n... (diff content truncated) ...".data

/-- The line-collecting loop of truncateDiff: keep whole lines while the
running length (line lengths plus one separator each) stays within the
budget, and replace the first line that does not fit by the marker. -/
def truncLoop (maxLength : Nat) : List (List Char) → Nat → List (List Char)
  | [], _ => []
  | l :: ls, cur =>
    if maxLength - truncNote.length < cur + l.length + 1 then [truncNote]
    else l :: truncLoop maxLength ls (cur + l.length + 1)

/-- truncateDiff: the diff is returned unchanged when it fits, otherwise as
many whole lines as fit in the reduced budget followed by the marker. -/
def truncateDiff (diffContent : List Char) (maxLength : Nat) : List Char :=
  if diffContent.length ≤ maxLength then diffContent
  else joinLines (truncLoop maxLength (splitLines diffContent) 0)

/-- AI-generated commit suggestion (interface AIGeneratedCommit). -/
structure AIGeneratedCommit where
  type : List Char
  scope : Option (List Char)
  subject : List Char
  body : Option (List Char)
  reasoning : Option (List Char)
deriving DecidableEq

/-- Splitting at the first occurrence of a code fence: the text before the
first occurrence of three backticks, and the text after those backticks. -/
def splitAtFence : List Char → Option (List Char × List Char)
  | [] => none
  | c :: cs =>
    if ("```".data).isPrefixOf (c :: cs) then some ([], (c :: cs).drop 3)
    else (splitAtFence cs).map (fun p => (c :: p.1, p.2))

/-- The fenced-block extraction of parseAIResponse: the trimmed capture of
the first fenced code block (an optional json language tag is skipped), or
the whole content when no complete fenced block exists. -/
def extractJson (content : List Char) : List Char :=
  match splitAtFence content with
  | none => content
  | some (_, r) =>
    let r := if ("json".data).isPrefixOf r then r.drop 4 else r
    match splitAtFence r with
    | none => content
    | some (cap, _) => trimL cap

/-- JSON values as produced by JSON.parse.  Numbers keep their source
lexeme: the engine's float canonicalization is outside the model. -/
inductive JSValue where
  | jnull : JSValue
  | jbool : Bool → JSValue
  | jnum : List Char → JSValue
  | jstr : List Char → JSValue
  | jarr : List JSValue → JSValue
  | jobj : List (List Char × JSValue) → JSValue

/-- JSON insignificant whitespace. -/
def jskipWs (cs : List Char) : List Char :=
  cs.dropWhile (fun c => c = ' ' || c = '\t' || c = '\n' || c = '\r')

/-- Value of a hexadecimal digit. -/
def hexVal (c : Char) : Option Nat :=
  if 48 ≤ c.toNat && c.toNat ≤ 57 then some (c.toNat - 48)
  else if 97 ≤ c.toNat && c.toNat ≤ 102 then some (c.toNat - 87)
  else if 65 ≤ c.toNat && c.toNat ≤ 70 then some (c.toNat - 55)
  else none

/-- JSON string body parser, after the opening quote: returns the decoded
characters and the remainder after the closing quote.  Unicode escapes
outside the scalar range fall back to Char.ofNat's default. -/
def parseJStringBody (fuel : Nat) (cs : List Char) :
    Option (List Char × List Char) :=
  match fuel, cs with
  | 0, _ => none
  | _, [] => none
  | fuel + 1, c :: rest =>
    if c = '"' then some ([], rest)
    else if c = '\\' then
      match rest with
      | [] => none
      | e :: rest2 =>
        let dec : Option (Char × List Char) :=
          if e = '"' then some ('"', rest2)
          else if e = '\\' then some ('\\', rest2)
          else if e = '/' then some ('/', rest2)
          else if e = 'b' then some (Char.ofNat 8, rest2)
          else if e = 'f' then some (Char.ofNat 12, rest2)
          else if e = 'n' then some ('\n', rest2)
          else if e = 'r' then some ('\r', rest2)
          else if e = 't' then some ('\t', rest2)
          else if e = 'u' then
            match rest2 with
            | h1 :: h2 :: h3 :: h4 :: rest3 =>
              match hexVal h1, hexVal h2, hexVal h3, hexVal h4 with
              | some a, some b, some c2, some d =>
                some (Char.ofNat (((a * 16 + b) * 16 + c2) * 16 + d), rest3)
              | _, _, _, _ => none
            | _ => none
          else none
        match dec with
        | some (ch, rest3) =>
          (parseJStringBody fuel rest3).map (fun p => (ch :: p.1, p.2))
        | none => none
    else if c.toNat < 32 then none
    else (parseJStringBody fuel rest).map (fun p => (c :: p.1, p.2))

/-- JSON digit. -/
def isDigitC (c : Char) : Bool := 48 ≤ c.toNat && c.toNat ≤ 57

/-- JSON number lexeme parser: sign, integer part without leading zeros,
optional fraction, optional exponent. -/
def parseJNum (cs : List Char) : Option (List Char × List Char) :=
  let signLen : Nat := match cs with | '-' :: _ => 1 | _ => 0
  let afterSign := cs.drop signLen
  let intPart := afterSign.takeWhile isDigitC
  if intPart.isEmpty then none
  else if 1 < intPart.length && intPart.headI = '0' then none
  else
    let rest1 := afterSign.dropWhile isDigitC
    let fracLen : Nat :=
      match rest1 with
      | '.' :: r =>
        let ds := r.takeWhile isDigitC
        if ds.isEmpty then 0 else ds.length + 1
      | _ => 0
    (if (match rest1 with | '.' :: r => (r.takeWhile isDigitC).isEmpty | _ => false)
     then none
     else
      let rest2 := rest1.drop fracLen
      let expLen : Option Nat :=
        match rest2 with
        | e :: r =>
          if e = 'e' || e = 'E' then
            let sLen : Nat := match r with | '+' :: _ => 1 | '-' :: _ => 1 | _ => 0
            let ds := (r.drop sLen).takeWhile isDigitC
            if ds.isEmpty then none else some (1 + sLen + ds.length)
          else some 0
        | [] => some 0
      match expLen with
      | none => none
      | some n =>
        let total := signLen + intPart.length + fracLen + n
        some (cs.take total, cs.drop total))

mutual

/-- JSON value parser with explicit fuel. -/
def parseJVal : Nat → List Char → Option (JSValue × List Char)
  | 0, _ => none
  | fuel + 1, cs =>
    let cs := jskipWs cs
    match cs with
    | [] => none
    | '{' :: rest =>
      let r2 := jskipWs rest
      (match r2 with
       | '}' :: r3 => some (.jobj [], r3)
       | _ => (parseJMembers fuel r2).map (fun p => (.jobj p.1, p.2)))
    | '[' :: rest =>
      let r2 := jskipWs rest
      (match r2 with
       | ']' :: r3 => some (.jarr [], r3)
       | _ => (parseJElems fuel r2).map (fun p => (.jarr p.1, p.2)))
    | '"' :: rest =>
      (parseJStringBody (rest.length + 1) rest).map (fun p => (.jstr p.1, p.2))
    | c :: _ =>
      if ("true".data).isPrefixOf cs then some (.jbool true, cs.drop 4)
      else if ("false".data).isPrefixOf cs then some (.jbool false, cs.drop 5)
      else if ("null".data).isPrefixOf cs then some (.jnull, cs.drop 4)
      else if c = '-' || isDigitC c then
        (parseJNum cs).map (fun p => (.jnum p.1, p.2))
      else none

/-- JSON object member list parser, positioned at a key. -/
def parseJMembers : Nat → List Char →
    Option (List (List Char × JSValue) × List Char)
  | 0, _ => none
  | fuel + 1, cs =>
    match jskipWs cs with
    | '"' :: rest =>
      match parseJStringBody (rest.length + 1) rest with
      | none => none
      | some (key, r2) =>
        match jskipWs r2 with
        | ':' :: r3 =>
          match parseJVal fuel r3 with
          | none => none
          | some (v, r4) =>
            (match jskipWs r4 with
             | ',' :: r5 =>
               (parseJMembers fuel r5).map (fun p => ((key, v) :: p.1, p.2))
             | '}' :: r5 => some ([(key, v)], r5)
             | _ => none)
        | _ => none
    | _ => none

/-- JSON array element list parser, positioned at an element. -/
def parseJElems : Nat → List Char → Option (List JSValue × List Char)
  | 0, _ => none
  | fuel + 1, cs =>
    match parseJVal fuel cs with
    | none => none
    | some (v, r2) =>
      match jskipWs r2 with
      | ',' :: r3 => (parseJElems fuel r3).map (fun p => (v :: p.1, p.2))
      | ']' :: r3 => some ([v], r3)
      | _ => none

end

/-- JSON.parse: a complete value with only trailing whitespace. -/
def jsonParse (cs : List Char) : Option JSValue :=
  match parseJVal (cs.length + 1) cs with
  | some (v, rest) => if (jskipWs rest).isEmpty then some v else none
  | none => none

/-- Whether a number lexeme denotes a nonzero value: some mantissa digit is
nonzero (float underflow of extreme exponents is outside the model). -/
def numTruthy (lex : List Char) : Bool :=
  (lex.takeWhile (fun c => !(c = 'e' || c = 'E'))).any
    (fun c => 49 ≤ c.toNat && c.toNat ≤ 57)

/-- JS truthiness of a JSON value. -/
def jsTruthy : JSValue → Bool
  | .jnull => false
  | .jbool b => b
  | .jnum lex => numTruthy lex
  | .jstr s => !s.isEmpty
  | .jarr _ => true
  | .jobj _ => true

mutual

/-- JS String() coercion of a JSON value (numbers keep their lexeme; the
engine would canonicalize the numeral). -/
def jsToString : JSValue → List Char
  | .jnull => "null".data
  | .jbool true => "true".data
  | .jbool false => "false".data
  | .jnum lex => lex
  | .jstr s => s
  | .jarr xs => jsArrToString xs
  | .jobj _ => "[object Object]".data

/-- JS Array.prototype.toString: elements joined with commas, null rendered
as the empty string. -/
def jsArrToString : List JSValue → List Char
  | [] => []
  | [x] => jsElemToString x
  | x :: y :: xs => jsElemToString x ++ ',' :: jsArrToString (y :: xs)

/-- One array element in Array.prototype.toString. -/
def jsElemToString : JSValue → List Char
  | .jnull => []
  | v => jsToString v

end

/-- Property access on a parsed JSON value: the last binding of the key in
an object, absent otherwise. -/
def jsGet (v : JSValue) (key : List Char) : Option JSValue :=
  match v with
  | .jobj fields => (fields.reverse.find? (fun kv => kv.1 = key)).map (fun kv => kv.2)
  | _ => none

/-- JS truthiness of an optional JSON value (undefined is falsy). -/
def optTruthy : Option JSValue → Bool
  | none => false
  | some v => jsTruthy v

/-- The error text produced by the catch-all wrapper of parseAIResponse. -/
def parseFailMsg (cause : List Char) : List Char :=
  "Failed to parse AI response: ".data ++ cause

/-- The cause text of the missing-required-fields failure. -/
def missingFieldsCause : List Char :=
  "Missing required fields: type and subject".data

/-- Modelled stand-in for the JS engine's SyntaxError message on malformed
JSON (the exact text is engine specific and not fixed by the source). -/
def jsonSyntaxCause : List Char := "Unexpected token in JSON".data

/-- parseAIResponse: extract the JSON text, parse it, require truthy type
and subject, lower-case the type, coerce present optional fields to text and
map absent or falsy optional fields to an absent value. -/
def parseAIResponse (content : List Char) :
    Except (List Char) AIGeneratedCommit :=
  let jsonStr := extractJson content
  match jsonParse jsonStr with
  | none => .error (parseFailMsg jsonSyntaxCause)
  | some parsed =>
    if !optTruthy (jsGet parsed ("type".data)) ||
       !optTruthy (jsGet parsed ("subject".data)) then
      .error (parseFailMsg missingFieldsCause)
    else
      .ok
        { type := toLowerL (jsToString ((jsGet parsed ("type".data)).getD .jnull))
          scope :=
            if optTruthy (jsGet parsed ("scope".data)) then
              some (jsToString ((jsGet parsed ("scope".data)).getD .jnull))
            else none
          subject := jsToString ((jsGet parsed ("subject".data)).getD .jnull)
          body :=
            if optTruthy (jsGet parsed ("body".data)) then
              some (jsToString ((jsGet parsed ("body".data)).getD .jnull))
            else none
          reasoning :=
            if optTruthy (jsGet parsed ("reasoning".data)) then
              some (jsToString ((jsGet parsed ("reasoning".data)).getD .jnull))
            else none }

/-! ## Claim-side definitions

Definitions in this section follow the wording of the specification claims,
to be compared against the code-derived definitions above. -/

/-- Claim wording for scope inference, read sequentially: the first segment
that maps to a known module alias via the fixed lookup; only when no segment
maps, the first segment that is not a generic source-root name. -/
def claimScopeCandidate (parts : List (List Char)) : Option (List Char) :=
  match parts.find? (fun part => (dirToModule (toLowerL part)).isSome) with
  | some part => dirToModule (toLowerL part)
  | none =>
    parts.find? (fun part =>
      !(toLowerL part = "src".data || toLowerL part = "lib".data))

/-- The claim's per-file contribution, with the same set aggregation as the
code. -/
def claimScopeStep (acc : List (List Char)) (f : GitFileStatus) :
    List (List Char) :=
  let parts := splitOnC '/' f.path
  if 1 < parts.length then
    match claimScopeCandidate parts.dropLast with
    | some d => insertSet acc d
    | none => acc
  else acc

/-- Scope inference as the claim describes it. -/
def claimDetermineScope (files : List GitFileStatus) : Option (List Char) :=
  if files.isEmpty then none
  else
    let dirs := files.foldl claimScopeStep []
    if dirs.length = 1 then dirs.head? else none

/-- Amended per-segment rule: scanning left to right, the first segment that
either maps to a module alias (contributing the alias) or is not a generic
source-root name (contributing the segment itself). -/
def amendedScopeCandidate (parts : List (List Char)) : Option (List Char) :=
  (parts.find? (fun part => (dirToModule (toLowerL part)).isSome ||
      !(toLowerL part = "src".data || toLowerL part = "lib".data))).map
    (fun part => (dirToModule (toLowerL part)).getD part)

/-- The amended per-file contribution. -/
def amendedScopeStep (acc : List (List Char)) (f : GitFileStatus) :
    List (List Char) :=
  let parts := splitOnC '/' f.path
  if 1 < parts.length then
    match amendedScopeCandidate parts.dropLast with
    | some d => insertSet acc d
    | none => acc
  else acc

/-- Scope inference under the amended per-segment rule. -/
def amendedDetermineScope (files : List GitFileStatus) : Option (List Char) :=
  if files.isEmpty then none
  else
    let dirs := files.foldl amendedScopeStep []
    if dirs.length = 1 then dirs.head? else none

/-- The claim's ordered type-inference rule chain, literally: a heuristic
rule fires when all files satisfy its predicate, and the bucket rules test
presence of the three change kinds. -/
def claimTypeChain (files : List GitFileStatus) : List Char :=
  if files.all (fun f => isTestFile f.path) then "test".data
  else if files.all (fun f => isDocFile f.path) then "docs".data
  else if files.all (fun f => isConfigFile f.path) then "chore".data
  else if files.all (fun f => isStyleFile f.path) then "style".data
  else if files.any (fun f => f.status = 'D') &&
          !files.any (fun f => f.status = 'A') &&
          !files.any (fun f => f.status = 'M') then "chore".data
  else if files.any (fun f => f.status = 'A') then "feat".data
  else if files.any (fun f => f.status = 'M') then "fix".data
  else "chore".data

/-- Well-formed type token: nonempty, word characters only. -/
def wfTypeTok (t : List Char) : Prop :=
  t ≠ [] ∧ ∀ c ∈ t, isWordChar c = true

/-- Well-formed optional scope token: absent, or nonempty without closing
parenthesis or newline. -/
def wfScopeTok : Option (List Char) → Prop
  | none => True
  | some s => s ≠ [] ∧ ∀ c ∈ s, c ≠ ')' ∧ c ≠ '\n'

/-- Well-formed subject text: nonempty, free of line terminators, and
already trimmed. -/
def wfSubjectText (s : List Char) : Prop :=
  s ≠ [] ∧ (∀ c ∈ s, isLineTerm c = false) ∧ trimL s = s

/-- Well-formed optional block (body or footer): absent, or nonempty and
already trimmed. -/
def wfBlock : Option (List Char) → Prop
  | none => True
  | some b => b ≠ [] ∧ trimL b = b

/-- The body/footer configurations that survive the parser's footer
heuristic: no footer, with no footer-keyword line in the body except
possibly its first line; or a footer whose first line carries a footer
keyword together with a body free of footer-keyword lines. -/
def roundTripBF : Option (List Char) → Option (List Char) → Prop
  | none, none => True
  | some b, none =>
    findFirstIdx isFooterLine (splitLines b) = none ∨
    findFirstIdx isFooterLine (splitLines b) = some 0
  | some b, some f =>
    (∀ l ∈ splitLines b, isFooterLine l = false) ∧
    isFooterLine ((splitLines f).headI) = true
  | none, some _ => False

/-- Total length of a line list counting one separator per line (proof
auxiliary). -/
def sumLens (ls : List (List Char)) : Nat :=
  (ls.map (fun l => l.length + 1)).sum

/-! ## Helper lemmas -/

theorem sumLens_nil : sumLens [] = 0 := rfl

theorem sumLens_cons (l : List Char) (ls : List (List Char)) :
    sumLens (l :: ls) = l.length + 1 + sumLens ls := by
  simp [sumLens]

theorem splitOnC_ne_nil (sep : Char) (s : List Char) : splitOnC sep s ≠ [] := by
  induction s with
  | nil => simp [splitOnC]
  | cons c cs ih =>
    unfold splitOnC
    split
    · simp
    · match h : splitOnC sep cs with
      | [] => simp
      | l :: ls => simp

theorem splitOnC_mem_no_sep (sep : Char) (s : List Char) :
    ∀ l ∈ splitOnC sep s, sep ∉ l := by
  induction s with
  | nil =>
    intro l hl
    simp [splitOnC] at hl
    simp [hl]
  | cons c cs ih =>
    intro l hl
    unfold splitOnC at hl
    by_cases hc : c = sep
    · simp [hc] at hl
      rcases hl with h | h
      · simp [h]
      · exact ih l h
    · simp [hc] at hl
      rcases hm : splitOnC sep cs with _ | ⟨x, xs⟩
      · exact absurd hm (splitOnC_ne_nil sep cs)
      · rw [hm] at hl
        simp at hl
        rcases hl with h | h
        · subst h
          intro hmem
          rcases List.mem_cons.mp hmem with h1 | h1
          · exact hc h1.symm
          · exact ih x (by simp [hm]) h1
        · exact ih l (by simp [hm, h])

theorem joinLines_splitLines (s : List Char) :
    joinLines (splitLines s) = s := by
  show joinLines (splitOnC '\n' s) = s
  induction s with
  | nil => rfl
  | cons c cs ih =>
    unfold splitOnC
    by_cases hc : c = '\n'
    · subst hc
      simp only [if_pos rfl]
      rcases hm : splitOnC '\n' cs with _ | ⟨l, ls⟩
      · exact absurd hm (splitOnC_ne_nil '\n' cs)
      · rw [hm] at ih
        simp [joinLines, ih]
    · simp only [if_neg hc]
      rcases hm : splitOnC '\n' cs with _ | ⟨l, ls⟩
      · exact absurd hm (splitOnC_ne_nil '\n' cs)
      · rw [hm] at ih
        cases ls with
        | nil =>
          simp [joinLines] at ih ⊢
          rw [ih]
        | cons l2 ls2 =>
          simp [joinLines] at ih ⊢
          rw [ih]

theorem length_joinLines (ls : List (List Char)) (h : ls ≠ []) :
    (joinLines ls).length + 1 = sumLens ls := by
  induction ls with
  | nil => exact absurd rfl h
  | cons l rest ih =>
    cases rest with
    | nil => simp [joinLines, sumLens]
    | cons l2 rest2 =>
      have := ih (by simp)
      simp [joinLines, sumLens_cons] at this ⊢
      omega

theorem append_singleton_isEmpty (xs : List α) (e : α) :
    (xs ++ [e]).isEmpty = false := by
  cases xs <;> rfl

theorem step_keep_or_error (q : Prop) [Decidable q] (r : ValidationResult)
    (e : List Char) (h : r.isValid = r.errors.isEmpty) :
    (if q then r else pushError r e).isValid =
      (if q then r else pushError r e).errors.isEmpty := by
  by_cases hq : q <;> simp [hq, pushError, append_singleton_isEmpty, h]

theorem step_error_or_keep (q : Prop) [Decidable q] (r : ValidationResult)
    (e : List Char) (h : r.isValid = r.errors.isEmpty) :
    (if q then pushError r e else r).isValid =
      (if q then pushError r e else r).errors.isEmpty := by
  by_cases hq : q <;> simp [hq, pushError, append_singleton_isEmpty, h]

theorem step_warn_or_keep (q : Prop) [Decidable q] (r : ValidationResult)
    (w : List Char) (h : r.isValid = r.errors.isEmpty) :
    (if q then pushWarning r w else r).isValid =
      (if q then pushWarning r w else r).errors.isEmpty := by
  by_cases hq : q <;> simp [hq, pushWarning, h]

theorem applyChecks_invariant (p : CommitMessage) (c : PluginConfig)
    (r0 : ValidationResult) (h : r0.isValid = r0.errors.isEmpty) :
    (applyChecks p c r0).isValid = (applyChecks p c r0).errors.isEmpty := by
  unfold applyChecks
  exact step_error_or_keep _ _ _ (step_warn_or_keep _ _ _
    (step_error_or_keep _ _ _ (step_error_or_keep _ _ _
      (step_error_or_keep _ _ _ (step_error_or_keep _ _ _
        (step_keep_or_error _ _ _ (step_keep_or_error _ _ _ h)))))))

/-! ## Claim C2 -/

/-- C2: for every raw message string and every config, the result of
validateCommitMessage has isValid = true exactly when its errors list is
empty, and warnings never influence isValid: the second conjunct exhibits a
valid result carrying a warning. -/
theorem validationResult_invariant :
    (∀ (message : List Char) (config : PluginConfig),
      (validateCommitMessage message config).isValid =
        (validateCommitMessage message config).errors.isEmpty) ∧
    validateCommitMessage ("feat: add stuff.".data) defaultConfig =
      ⟨true, [], [subjectPeriodWarn]⟩ := by
  constructor
  · intro message config
    unfold validateCommitMessage
    split
    · rfl
    · split
      · rfl
      · exact applyChecks_invariant _ _ _ rfl
  · decide

/-! ## Claim C3 -/

/-- C3: an empty or whitespace-only raw message makes validateCommitMessage
return immediately with the single empty-message error and no warnings, and
a non-blank message whose first line fails the header grammar (a parse
failure) makes it return immediately with the single grammar error and no
warnings; no later check contributes in either case. -/
theorem fatal_short_circuit :
    ∀ (config : PluginConfig) (message : List Char),
      ((trimL message).isEmpty = true →
        validateCommitMessage message config = ⟨false, [emptyMsgErr], []⟩) ∧
      ((trimL message).isEmpty = false → parseCommitMessage message = none →
        validateCommitMessage message config = ⟨false, [formatErr], []⟩) := by
  intro config message
  constructor
  · intro h
    simp [validateCommitMessage, h, pushError]
  · intro h1 h2
    simp [validateCommitMessage, h1, h2, pushError]

/-- Closed instance of the short-circuit theorem: a whitespace-only message
and a message whose first line fails the grammar, under the default
configuration. -/
theorem fatal_short_circuit_witness :
    validateCommitMessage (" ".data) defaultConfig = ⟨false, [emptyMsgErr], []⟩ ∧
    validateCommitMessage ("hello world".data) defaultConfig =
      ⟨false, [formatErr], []⟩ :=
  ⟨(fatal_short_circuit defaultConfig (" ".data)).1 (by decide),
   (fatal_short_circuit defaultConfig ("hello world".data)).2
     (by decide) (by decide)⟩

/-! ## Claim C7 -/

theorem truncNote_length : truncNote.length = 33 := by decide

theorem truncLoop_sum (maxL : Nat) :
    ∀ (lines : List (List Char)) (cur : Nat), 33 ≤ maxL → cur ≤ maxL - 33 →
      sumLens (truncLoop maxL lines cur) + cur ≤ maxL + 1 := by
  intro lines
  induction lines with
  | nil =>
    intro cur h33 hcur
    simp [truncLoop, sumLens_nil]
    omega
  | cons l rest ih =>
    intro cur h33 hcur
    unfold truncLoop
    split
    · rw [sumLens_cons, sumLens_nil, truncNote_length]
      omega
    · rename_i hfit
      rw [truncNote_length] at hfit
      rw [sumLens_cons]
      have hfit2 : cur + l.length + 1 ≤ maxL - 33 := by omega
      have := ih (cur + l.length + 1) h33 hfit2
      omega

theorem truncLoop_shape (maxL : Nat) :
    ∀ (lines : List (List Char)) (cur : Nat),
      (∃ k, truncLoop maxL lines cur = lines.take k ++ [truncNote]) ∨
      truncLoop maxL lines cur = lines := by
  intro lines
  induction lines with
  | nil =>
    intro cur
    right
    rfl
  | cons l rest ih =>
    intro cur
    unfold truncLoop
    split
    · exact Or.inl ⟨0, rfl⟩
    · rcases ih (cur + l.length + 1) with ⟨k, hk⟩ | h
      · exact Or.inl ⟨k + 1, by simp [hk]⟩
      · right
        rw [h]

theorem truncLoop_eq_self (maxL : Nat) :
    ∀ (lines : List (List Char)) (cur : Nat),
      (∀ l ∈ lines, '\n' ∉ l) → truncLoop maxL lines cur = lines →
      cur + sumLens lines ≤ maxL - 33 ∨ lines = [] := by
  intro lines
  induction lines with
  | nil =>
    intro cur _ _
    exact Or.inr rfl
  | cons l rest ih =>
    intro cur hnl heq
    unfold truncLoop at heq
    split at heq
    · exfalso
      have hl : l = truncNote := by
        have := congrArg (fun ls => ls.headI) heq
        simpa using this.symm
      have : '\n' ∈ l := by
        rw [hl]
        decide
      exact hnl l (by simp) this
    · rename_i hfit
      rw [truncNote_length] at hfit
      have htail : truncLoop maxL rest (cur + l.length + 1) = rest := by
        have := congrArg List.tail heq
        simpa using this
      rcases ih (cur + l.length + 1) (fun x hx => hnl x (by simp [hx])) htail with
        h | h
      · left
        rw [sumLens_cons]
        omega
      · subst h
        left
        rw [sumLens_cons, sumLens_nil]
        omega

/-- Closed counterexample to C7 as stated: a 12-character single-line diff
truncated to 5 characters yields the 33-character marker alone, which is
longer than the requested maximum. -/
theorem truncateDiff_counterexample :
    (truncateDiff ("aaaaaaaaaaaa".data) 5).length = 33 ∧
    ¬ (truncateDiff ("aaaaaaaaaaaa".data) 5).length ≤ 5 := by
  decide

/-- C7, amended: truncateDiff returns the diff unchanged when it fits;
otherwise it returns a prefix of the diff's whole lines followed by the
truncation marker (whose text contains the word truncated), and the result
is never longer than the requested maximum provided the maximum is at least
the marker length 33 (for smaller maxima the marker alone, of length 33, is
returned and exceeds the maximum). -/
theorem truncateDiff_amended (d : List Char) (maxLength : Nat) :
    (d.length ≤ maxLength → truncateDiff d maxLength = d) ∧
    (maxLength < d.length →
      ∃ k, truncateDiff d maxLength =
          joinLines ((splitLines d).take k ++ [truncNote]) ∧
        containsSub ("truncated".data) truncNote = true ∧
        (33 ≤ maxLength → (truncateDiff d maxLength).length ≤ maxLength)) := by
  constructor
  · intro h
    simp [truncateDiff, h]
  · intro h
    have hnotle : ¬ d.length ≤ maxLength := by omega
    have hres : truncateDiff d maxLength =
        joinLines (truncLoop maxLength (splitLines d) 0) := by
      simp [truncateDiff, hnotle]
    rcases truncLoop_shape maxLength (splitLines d) 0 with ⟨k, hk⟩ | hself
    · refine ⟨k, by rw [hres, hk], by decide, ?_⟩
      intro h33
      have hsum := truncLoop_sum maxLength (splitLines d) 0 h33 (by omega)
      rw [hres, hk]
      rw [hk] at hsum
      have hne : (splitLines d).take k ++ [truncNote] ≠ [] := by
        simp
      have hlen := length_joinLines _ hne
      omega
    · exfalso
      have hnl := splitOnC_mem_no_sep '\n' d
      rcases truncLoop_eq_self maxLength (splitLines d) 0 hnl hself with hle | hnil
      · have hne : splitLines d ≠ [] := splitOnC_ne_nil '\n' d
        have hlen := length_joinLines (splitLines d) hne
        rw [joinLines_splitLines] at hlen
        omega
      · exact absurd hnil (splitOnC_ne_nil '\n' d)

/-- Closed instance of the amended truncation theorem: a fitting diff is
returned unchanged, and an over-long diff is truncated to whole lines plus
the marker within a maximum of 45. -/
theorem truncateDiff_amended_witness :
    truncateDiff ("short".data) 10 = "short".data ∧
    ∃ k, truncateDiff ("line1\nline2\nline3\nline4\nline5\nline6\nline7\nline8\nline9\nlineA".data) 45 =
        joinLines ((splitLines ("line1\nline2\nline3\nline4\nline5\nline6\nline7\nline8\nline9\nlineA".data)).take k
          ++ [truncNote]) ∧
      containsSub ("truncated".data) truncNote = true ∧
      (33 ≤ 45 →
        (truncateDiff ("line1\nline2\nline3\nline4\nline5\nline6\nline7\nline8\nline9\nlineA".data) 45).length ≤ 45) :=
  ⟨(truncateDiff_amended ("short".data) 10).1 (by decide),
   (truncateDiff_amended ("line1\nline2\nline3\nline4\nline5\nline6\nline7\nline8\nline9\nlineA".data) 45).2
     (by decide)⟩

/-! ## Claim C5 -/

theorem scopeCandidate_eq_amended (parts : List (List Char)) :
    scopeCandidate parts = amendedScopeCandidate parts := by
  induction parts with
  | nil => rfl
  | cons part rest ih =>
    unfold scopeCandidate amendedScopeCandidate
    simp only [List.find?]
    cases hm : dirToModule (toLowerL part) with
    | some m => simp [hm]
    | none =>
      by_cases hg : (decide (toLowerL part = "src".data) ||
          decide (toLowerL part = "lib".data)) = true
      · simp only [hm, hg, Option.isSome_none, Bool.false_or, Bool.not_true,
          if_pos hg]
        rw [ih]
        rfl
      · have hg2 : (decide (toLowerL part = "src".data) ||
            decide (toLowerL part = "lib".data)) = false := by
          revert hg
          cases decide (toLowerL part = "src".data) ||
            decide (toLowerL part = "lib".data) <;> simp
        simp [hm, hg2]

theorem scopeStep_eq_amended (acc : List (List Char)) (f : GitFileStatus) :
    scopeStep acc f = amendedScopeStep acc f := by
  unfold scopeStep amendedScopeStep
  simp only [scopeCandidate_eq_amended]

theorem foldl_scopeStep_eq (files : List GitFileStatus) :
    ∀ acc, files.foldl scopeStep acc = files.foldl amendedScopeStep acc := by
  induction files with
  | nil => intro acc; rfl
  | cons f fs ih =>
    intro acc
    rw [List.foldl_cons, List.foldl_cons, scopeStep_eq_amended, ih]

/-- Closed counterexample to C5 as stated: for the single changed file
foo/test/x.ts, the claim's candidate rule (first alias-mapped segment, else
first non-generic segment) suggests the alias test, while determineScope
suggests foo, the first segment that is non-generic although it does not
map. -/
theorem scope_inference_counterexample :
    claimDetermineScope [⟨"foo/test/x.ts".data, 'M', none⟩] = some ("test".data) ∧
    determineScope [⟨"foo/test/x.ts".data, 'M', none⟩] = some ("foo".data) ∧
    claimDetermineScope [⟨"foo/test/x.ts".data, 'M', none⟩] ≠
      determineScope [⟨"foo/test/x.ts".data, 'M', none⟩] := by
  refine ⟨by decide, by decide, by decide⟩

/-- C5, amended: each file's candidate is found by a single left-to-right
scan with per-segment priority — the first segment that either maps to a
known module alias (contributing the alias) or is not a generic source-root
name (contributing the segment itself); the candidates are collected into a
set and the suggested scope is the unique element when the set has exactly
one distinct value, and absent otherwise. -/
theorem scope_inference_amended :
    ∀ files : List GitFileStatus,
      determineScope files = amendedDetermineScope files := by
  intro files
  unfold determineScope amendedDetermineScope
  rw [foldl_scopeStep_eq]

/-! ## Claims C9 and C10: classifier lemmas -/

theorem isPrefixOf_eq_true_iff (pat : List Char) :
    ∀ p, pat.isPrefixOf p = true ↔ ∃ t, p = pat ++ t := by
  induction pat with
  | nil =>
    intro p
    simp [List.isPrefixOf]
  | cons a pa ih =>
    intro p
    cases p with
    | nil => simp [List.isPrefixOf]
    | cons b pb =>
      simp only [List.isPrefixOf, Bool.and_eq_true, beq_iff_eq, ih pb,
        List.cons_append]
      constructor
      · rintro ⟨rfl, t, rfl⟩
        exact ⟨t, rfl⟩
      · rintro ⟨t, ht⟩
        injection ht with h1 h2
        exact ⟨h1.symm, t, h2⟩

theorem isSuffixOf_eq_true_iff (pat p : List Char) :
    pat.isSuffixOf p = true ↔ ∃ t, p = t ++ pat := by
  show pat.reverse.isPrefixOf p.reverse = true ↔ _
  rw [isPrefixOf_eq_true_iff]
  constructor
  · rintro ⟨t, ht⟩
    refine ⟨t.reverse, ?_⟩
    have := congrArg List.reverse ht
    simpa using this
  · rintro ⟨t, rfl⟩
    exact ⟨t.reverse, by simp⟩

theorem containsSub_eq_true_iff (pat : List Char) :
    ∀ p, containsSub pat p = true ↔ ∃ pre post, p = pre ++ pat ++ post := by
  intro p
  induction p with
  | nil =>
    constructor
    · intro h
      have hp : pat = [] := by
        cases pat with
        | nil => rfl
        | cons a as => simp [containsSub, List.isEmpty] at h
      exact ⟨[], [], by simp [hp]⟩
    · rintro ⟨pre, post, h⟩
      rcases List.append_eq_nil.mp h.symm with ⟨h1, h2⟩
      rcases List.append_eq_nil.mp h1 with ⟨hpre, h3⟩
      subst h3
      simp [containsSub, List.isEmpty]
  | cons c rest ih =>
    unfold containsSub
    rw [Bool.or_eq_true, isPrefixOf_eq_true_iff, ih]
    constructor
    · rintro (⟨t, ht⟩ | ⟨pre, post, hp⟩)
      · exact ⟨[], t, by simp [ht]⟩
      · exact ⟨c :: pre, post, by simp [hp]⟩
    · rintro ⟨pre, post, hp⟩
      cases pre with
      | nil =>
        left
        exact ⟨post, by simpa using hp⟩
      | cons x xs =>
        right
        simp at hp
        exact ⟨xs, post, by simp [hp.2]⟩

theorem toLowerL_append (a b : List Char) :
    toLowerL (a ++ b) = toLowerL a ++ toLowerL b := by
  simp [toLowerL]

theorem lower_suffix (pat p : List Char) (hpat : toLowerL pat = pat)
    (h : pat.isSuffixOf p = true) : pat.isSuffixOf (toLowerL p) = true := by
  rw [isSuffixOf_eq_true_iff] at h ⊢
  rcases h with ⟨t, rfl⟩
  exact ⟨toLowerL t, by rw [toLowerL_append, hpat]⟩

theorem lower_prefixOf (pat p : List Char) (hpat : toLowerL pat = pat)
    (h : pat.isPrefixOf p = true) : pat.isPrefixOf (toLowerL p) = true := by
  rw [isPrefixOf_eq_true_iff] at h ⊢
  rcases h with ⟨t, rfl⟩
  exact ⟨toLowerL t, by rw [toLowerL_append, hpat]⟩

theorem lower_containsSub (pat p : List Char) (hpat : toLowerL pat = pat)
    (h : containsSub pat p = true) : containsSub pat (toLowerL p) = true := by
  rw [containsSub_eq_true_iff] at h ⊢
  rcases h with ⟨pre, post, rfl⟩
  exact ⟨toLowerL pre, toLowerL post, by rw [toLowerL_append, toLowerL_append, hpat]⟩

theorem any_suffix_lower (pats : List (List Char)) (p : List Char)
    (hpats : ∀ q ∈ pats, toLowerL q = q)
    (h : pats.any (fun s => s.isSuffixOf p) = true) :
    pats.any (fun s => s.isSuffixOf (toLowerL p)) = true := by
  rw [List.any_eq_true] at h ⊢
  rcases h with ⟨q, hq, hs⟩
  exact ⟨q, hq, lower_suffix q p (hpats q hq) hs⟩

theorem any_contains_lower (pats : List (List Char)) (p : List Char)
    (hpats : ∀ q ∈ pats, toLowerL q = q)
    (h : pats.any (fun s => containsSub s p) = true) :
    pats.any (fun s => containsSub s (toLowerL p)) = true := by
  rw [List.any_eq_true] at h ⊢
  rcases h with ⟨q, hq, hs⟩
  exact ⟨q, hq, lower_containsSub q p (hpats q hq) hs⟩

theorem isTestFile_lower (p : List Char) (h : isTestFile p = true) :
    isTestFile (toLowerL p) = true := by
  unfold isTestFile at h ⊢
  rw [Bool.or_eq_true] at h ⊢
  rcases h with h | h
  · exact Or.inl (any_suffix_lower _ p (by decide) h)
  · exact Or.inr (any_contains_lower _ p (by decide) h)

theorem isDocFile_lower (p : List Char) (h : isDocFile p = true) :
    isDocFile (toLowerL p) = true := by
  unfold isDocFile at h ⊢
  rw [Bool.or_eq_true] at h ⊢
  rcases h with h | h
  · exact Or.inl (any_suffix_lower _ p (by decide) h)
  · exact Or.inr (any_contains_lower _ p (by decide) h)

theorem isConfigFile_lower (p : List Char) (h : isConfigFile p = true) :
    isConfigFile (toLowerL p) = true := by
  unfold isConfigFile at h ⊢
  rw [Bool.or_eq_true, Bool.or_eq_true] at h ⊢
  rcases h with (h | h) | h
  · exact Or.inl (Or.inl (any_suffix_lower _ p (by decide) h))
  · exact Or.inl (Or.inr (lower_containsSub _ p (by decide) h))
  · exact Or.inr (lower_prefixOf _ p (by decide) h)

theorem isStyleFile_lower (p : List Char) (h : isStyleFile p = true) :
    isStyleFile (toLowerL p) = true := by
  unfold isStyleFile at h ⊢
  exact any_suffix_lower _ p (by decide) h

theorem analyzeStep_eq (a : FileAnalysis) (f : GitFileStatus) :
    analyzeStep a f =
      { added := a.added ++ (if f.status = 'A' then [f.path] else [])
        modified := a.modified ++ (if f.status = 'M' then [f.path] else [])
        deleted := a.deleted ++ (if f.status = 'D' then [f.path] else [])
        hasTest := a.hasTest || isTestFile (toLowerL f.path)
        hasDoc := a.hasDoc || isDocFile (toLowerL f.path)
        hasConfig := a.hasConfig || isConfigFile (toLowerL f.path)
        hasStyle := a.hasStyle || isStyleFile (toLowerL f.path) } := by
  unfold analyzeStep
  by_cases h1 : f.status = 'A' <;> by_cases h2 : f.status = 'M' <;>
    by_cases h3 : f.status = 'D' <;>
    by_cases h4 : isTestFile (toLowerL f.path) = true <;>
    by_cases h5 : isDocFile (toLowerL f.path) = true <;>
    by_cases h6 : isConfigFile (toLowerL f.path) = true <;>
    by_cases h7 : isStyleFile (toLowerL f.path) = true <;>
    simp_all

theorem analyzeStep_added (a : FileAnalysis) (f : GitFileStatus) :
    (analyzeStep a f).added =
      a.added ++ (if f.status = 'A' then [f.path] else []) := by
  rw [analyzeStep_eq]

theorem analyzeStep_modified (a : FileAnalysis) (f : GitFileStatus) :
    (analyzeStep a f).modified =
      a.modified ++ (if f.status = 'M' then [f.path] else []) := by
  rw [analyzeStep_eq]

theorem analyzeStep_deleted (a : FileAnalysis) (f : GitFileStatus) :
    (analyzeStep a f).deleted =
      a.deleted ++ (if f.status = 'D' then [f.path] else []) := by
  rw [analyzeStep_eq]

theorem analyzeStep_hasTest (a : FileAnalysis) (f : GitFileStatus) :
    (analyzeStep a f).hasTest = (a.hasTest || isTestFile (toLowerL f.path)) := by
  rw [analyzeStep_eq]

theorem analyzeStep_hasDoc (a : FileAnalysis) (f : GitFileStatus) :
    (analyzeStep a f).hasDoc = (a.hasDoc || isDocFile (toLowerL f.path)) := by
  rw [analyzeStep_eq]

theorem analyzeStep_hasConfig (a : FileAnalysis) (f : GitFileStatus) :
    (analyzeStep a f).hasConfig =
      (a.hasConfig || isConfigFile (toLowerL f.path)) := by
  rw [analyzeStep_eq]

theorem analyzeStep_hasStyle (a : FileAnalysis) (f : GitFileStatus) :
    (analyzeStep a f).hasStyle = (a.hasStyle || isStyleFile (toLowerL f.path)) := by
  rw [analyzeStep_eq]

theorem analyzeFiles_go_added (files : List GitFileStatus) :
    ∀ a : FileAnalysis, (files.foldl analyzeStep a).added =
      a.added ++ (files.filter (fun f => f.status = 'A')).map (fun f => f.path) := by
  induction files with
  | nil => intro a; simp
  | cons f fs ih =>
    intro a
    rw [List.foldl_cons, ih, analyzeStep_added]
    by_cases h : f.status = 'A' <;> simp [h, List.filter_cons]

theorem analyzeFiles_go_modified (files : List GitFileStatus) :
    ∀ a : FileAnalysis, (files.foldl analyzeStep a).modified =
      a.modified ++ (files.filter (fun f => f.status = 'M')).map (fun f => f.path) := by
  induction files with
  | nil => intro a; simp
  | cons f fs ih =>
    intro a
    rw [List.foldl_cons, ih, analyzeStep_modified]
    by_cases h : f.status = 'M' <;> simp [h, List.filter_cons]

theorem analyzeFiles_go_deleted (files : List GitFileStatus) :
    ∀ a : FileAnalysis, (files.foldl analyzeStep a).deleted =
      a.deleted ++ (files.filter (fun f => f.status = 'D')).map (fun f => f.path) := by
  induction files with
  | nil => intro a; simp
  | cons f fs ih =>
    intro a
    rw [List.foldl_cons, ih, analyzeStep_deleted]
    by_cases h : f.status = 'D' <;> simp [h, List.filter_cons]

theorem analyzeFiles_go_hasTest (files : List GitFileStatus) :
    ∀ a : FileAnalysis, (files.foldl analyzeStep a).hasTest =
      (a.hasTest || files.any (fun f => isTestFile (toLowerL f.path))) := by
  induction files with
  | nil => intro a; simp
  | cons f fs ih =>
    intro a
    rw [List.foldl_cons, ih, analyzeStep_hasTest]
    simp [Bool.or_assoc]

theorem analyzeFiles_go_hasDoc (files : List GitFileStatus) :
    ∀ a : FileAnalysis, (files.foldl analyzeStep a).hasDoc =
      (a.hasDoc || files.any (fun f => isDocFile (toLowerL f.path))) := by
  induction files with
  | nil => intro a; simp
  | cons f fs ih =>
    intro a
    rw [List.foldl_cons, ih, analyzeStep_hasDoc]
    simp [Bool.or_assoc]

theorem analyzeFiles_go_hasConfig (files : List GitFileStatus) :
    ∀ a : FileAnalysis, (files.foldl analyzeStep a).hasConfig =
      (a.hasConfig || files.any (fun f => isConfigFile (toLowerL f.path))) := by
  induction files with
  | nil => intro a; simp
  | cons f fs ih =>
    intro a
    rw [List.foldl_cons, ih, analyzeStep_hasConfig]
    simp [Bool.or_assoc]

theorem analyzeFiles_go_hasStyle (files : List GitFileStatus) :
    ∀ a : FileAnalysis, (files.foldl analyzeStep a).hasStyle =
      (a.hasStyle || files.any (fun f => isStyleFile (toLowerL f.path))) := by
  induction files with
  | nil => intro a; simp
  | cons f fs ih =>
    intro a
    rw [List.foldl_cons, ih, analyzeStep_hasStyle]
    simp [Bool.or_assoc]

theorem analyzeFiles_added (files : List GitFileStatus) :
    (analyzeFiles files).added =
      (files.filter (fun f => f.status = 'A')).map (fun f => f.path) := by
  have := analyzeFiles_go_added files ⟨[], [], [], false, false, false, false⟩
  simpa [analyzeFiles] using this

theorem analyzeFiles_modified (files : List GitFileStatus) :
    (analyzeFiles files).modified =
      (files.filter (fun f => f.status = 'M')).map (fun f => f.path) := by
  have := analyzeFiles_go_modified files ⟨[], [], [], false, false, false, false⟩
  simpa [analyzeFiles] using this

theorem analyzeFiles_deleted (files : List GitFileStatus) :
    (analyzeFiles files).deleted =
      (files.filter (fun f => f.status = 'D')).map (fun f => f.path) := by
  have := analyzeFiles_go_deleted files ⟨[], [], [], false, false, false, false⟩
  simpa [analyzeFiles] using this

theorem analyzeFiles_hasTest (files : List GitFileStatus) :
    (analyzeFiles files).hasTest =
      files.any (fun f => isTestFile (toLowerL f.path)) := by
  have := analyzeFiles_go_hasTest files ⟨[], [], [], false, false, false, false⟩
  simpa [analyzeFiles] using this

theorem analyzeFiles_hasDoc (files : List GitFileStatus) :
    (analyzeFiles files).hasDoc =
      files.any (fun f => isDocFile (toLowerL f.path)) := by
  have := analyzeFiles_go_hasDoc files ⟨[], [], [], false, false, false, false⟩
  simpa [analyzeFiles] using this

theorem analyzeFiles_hasConfig (files : List GitFileStatus) :
    (analyzeFiles files).hasConfig =
      files.any (fun f => isConfigFile (toLowerL f.path)) := by
  have := analyzeFiles_go_hasConfig files ⟨[], [], [], false, false, false, false⟩
  simpa [analyzeFiles] using this

theorem analyzeFiles_hasStyle (files : List GitFileStatus) :
    (analyzeFiles files).hasStyle =
      files.any (fun f => isStyleFile (toLowerL f.path)) := by
  have := analyzeFiles_go_hasStyle files ⟨[], [], [], false, false, false, false⟩
  simpa [analyzeFiles] using this

theorem hasFlag_and_all (files : List GitFileStatus) (h : files ≠ [])
    (g : List Char → Bool) (hg : ∀ p, g p = true → g (toLowerL p) = true) :
    (files.any (fun f => g (toLowerL f.path)) && files.all (fun f => g f.path)) =
      files.all (fun f => g f.path) := by
  cases hall : files.all (fun f => g f.path) with
  | false => simp
  | true =>
    rw [Bool.and_true]
    rw [List.all_eq_true] at hall
    cases files with
    | nil => exact absurd rfl h
    | cons x xs =>
      rw [List.any_eq_true]
      exact ⟨x, by simp, hg _ (hall x (by simp))⟩

theorem filter_length_pos_iff (p : GitFileStatus → Bool)
    (files : List GitFileStatus) :
    0 < (files.filter p).length ↔ files.any p = true := by
  rw [List.length_pos, Ne, List.filter_eq_nil_iff, List.any_eq_true]
  constructor
  · intro h
    rcases not_forall.mp h with ⟨a, ha⟩
    rcases Classical.not_imp.mp ha with ⟨hmem, hp⟩
    exact ⟨a, hmem, not_not.mp hp⟩
  · rintro ⟨a, ha, hp⟩ hall
    exact (hall a ha) hp

theorem decide_filter_len_pos (p : GitFileStatus → Bool)
    (files : List GitFileStatus) :
    decide (0 < ((files.filter p).map (fun f => f.path)).length) =
      files.any p := by
  rw [List.length_map]
  have hiff := filter_length_pos_iff p files
  cases hb : files.any p with
  | false =>
    rw [hb] at hiff
    simp only [Bool.false_eq_true, iff_false] at hiff
    simpa using hiff
  | true =>
    rw [hb] at hiff
    simpa using hiff.mpr rfl

theorem decide_filter_len_zero (p : GitFileStatus → Bool)
    (files : List GitFileStatus) :
    decide (((files.filter p).map (fun f => f.path)).length = 0) =
      !files.any p := by
  rw [List.length_map]
  have hiff := filter_length_pos_iff p files
  cases hb : files.any p with
  | false =>
    rw [hb] at hiff
    simp only [Bool.false_eq_true, iff_false] at hiff
    have : (files.filter p).length = 0 := by omega
    simp [this]
  | true =>
    rw [hb] at hiff
    have : 0 < (files.filter p).length := hiff.mpr rfl
    have h2 : ¬ (files.filter p).length = 0 := by omega
    simp [h2]

theorem prop_filter_len_pos (p : GitFileStatus → Bool)
    (files : List GitFileStatus) :
    (0 < ((files.filter p).map (fun f => f.path)).length) =
      (files.any p = true) := by
  rw [List.length_map]
  exact propext (filter_length_pos_iff p files)

theorem determineType_eq_claim (files : List GitFileStatus) (h : files ≠ []) :
    determineType (analyzeFiles files) files = claimTypeChain files := by
  unfold determineType claimTypeChain
  rw [analyzeFiles_hasTest, analyzeFiles_hasDoc, analyzeFiles_hasConfig,
    analyzeFiles_hasStyle, analyzeFiles_added, analyzeFiles_modified,
    analyzeFiles_deleted]
  rw [hasFlag_and_all files h _ isTestFile_lower,
    hasFlag_and_all files h _ isDocFile_lower,
    hasFlag_and_all files h _ isConfigFile_lower,
    hasFlag_and_all files h _ isStyleFile_lower]
  simp only [decide_filter_len_pos, decide_filter_len_zero,
    prop_filter_len_pos, Bool.decide_eq_true]

/-- Closed counterexample to C9 as stated: on the empty DiffSummary the
claim's first rule (all files are tests, vacuously true) dictates test,
while determineType returns chore because the code pairs every all-files
rule with a some-file flag. -/
theorem type_inference_counterexample :
    claimTypeChain [] = "test".data ∧
    determineType (analyzeFiles []) [] = "chore".data ∧
    claimTypeChain [] ≠ determineType (analyzeFiles []) [] :=
  ⟨by decide, by decide, by decide⟩

/-- C9, amended: for every nonempty DiffSummary the suggested type is
determined by the first matching rule in order (all files tests → test; all
docs → docs; all config → chore; all style → style; only deletions present →
chore; any additions present → feat; any modifications present with no
additions → fix; otherwise chore); and for a DiffSummary of exactly one
added file src/utils/helpers.ts the suggested type is feat with suggested
subject add helpers.ts. -/
theorem type_inference_amended :
    (∀ files : List GitFileStatus, files ≠ [] →
      determineType (analyzeFiles files) files = claimTypeChain files) ∧
    (analyzeDiff ⟨[⟨("src/utils/helpers.ts".data), 'A', none⟩], [], 10, 2⟩).suggestedType =
      "feat".data ∧
    (analyzeDiff ⟨[⟨("src/utils/helpers.ts".data), 'A', none⟩], [], 10, 2⟩).suggestedSubject =
      "add helpers.ts".data :=
  ⟨determineType_eq_claim, by decide, by decide⟩

/-- Closed instance of the amended type-inference theorem at a singleton
file list. -/
theorem type_inference_amended_witness :
    determineType (analyzeFiles [⟨("src/utils/helpers.ts".data), 'A', none⟩])
      [⟨("src/utils/helpers.ts".data), 'A', none⟩] =
      claimTypeChain [⟨("src/utils/helpers.ts".data), 'A', none⟩] :=
  type_inference_amended.1 _ (by decide)

/-! ## Claim C10 -/

/-- C10: files whose change kind is renamed, copied, unmerged or unknown are
never counted in the added/modified/deleted buckets; consequently a
DiffSummary of at least two such files, none matching the
test/doc/config/style heuristics, is classified chore with subject
update files () on an empty change-count list. -/
theorem unbucketed_kinds :
    ∀ files : List GitFileStatus,
      (∀ f ∈ files,
        f.status = 'R' ∨ f.status = 'C' ∨ f.status = 'U' ∨ f.status = '?') →
      ((analyzeFiles files).added = [] ∧ (analyzeFiles files).modified = [] ∧
        (analyzeFiles files).deleted = []) ∧
      (2 ≤ files.length →
        (∀ f ∈ files, isTestFile (toLowerL f.path) = false ∧
          isDocFile (toLowerL f.path) = false ∧
          isConfigFile (toLowerL f.path) = false ∧
          isStyleFile (toLowerL f.path) = false) →
        ∀ (d : List Char) (adds dels : Nat),
          (analyzeDiff ⟨files, d, adds, dels⟩).suggestedType = "chore".data ∧
          (analyzeDiff ⟨files, d, adds, dels⟩).suggestedSubject =
            "update files ()".data) := by
  intro files hstat
  have hfilter : ∀ c : Char, c = 'A' ∨ c = 'M' ∨ c = 'D' →
      files.filter (fun f => f.status = c) = [] := by
    intro c hc
    rw [List.filter_eq_nil_iff]
    intro f hf
    rcases hstat f hf with h | h | h | h <;>
      rcases hc with rfl | rfl | rfl <;> simp [h]
  have hadded : (analyzeFiles files).added = [] := by
    rw [analyzeFiles_added, hfilter 'A' (by simp)]
    rfl
  have hmod : (analyzeFiles files).modified = [] := by
    rw [analyzeFiles_modified, hfilter 'M' (by simp)]
    rfl
  have hdel : (analyzeFiles files).deleted = [] := by
    rw [analyzeFiles_deleted, hfilter 'D' (by simp)]
    rfl
  refine ⟨⟨hadded, hmod, hdel⟩, ?_⟩
  intro hlen hheur d adds dels
  have hflag : ∀ (g : List Char → Bool),
      (∀ f ∈ files, g (toLowerL f.path) = false) →
      files.any (fun f => g (toLowerL f.path)) = false := by
    intro g hg
    cases hb : files.any (fun f => g (toLowerL f.path)) with
    | false => rfl
    | true =>
      rcases List.any_eq_true.mp hb with ⟨f, hf, hpf⟩
      rw [hg f hf] at hpf
      exact absurd hpf (by simp)
  have hT : (analyzeFiles files).hasTest = false := by
    rw [analyzeFiles_hasTest]
    exact hflag _ (fun f hf => (hheur f hf).1)
  have hD : (analyzeFiles files).hasDoc = false := by
    rw [analyzeFiles_hasDoc]
    exact hflag _ (fun f hf => (hheur f hf).2.1)
  have hC : (analyzeFiles files).hasConfig = false := by
    rw [analyzeFiles_hasConfig]
    exact hflag _ (fun f hf => (hheur f hf).2.2.1)
  have hS : (analyzeFiles files).hasStyle = false := by
    rw [analyzeFiles_hasStyle]
    exact hflag _ (fun f hf => (hheur f hf).2.2.2)
  have hType : (analyzeDiff ⟨files, d, adds, dels⟩).suggestedType =
      "chore".data := by
    show determineType (analyzeFiles files) files = "chore".data
    unfold determineType
    simp [hT, hD, hC, hS, hadded, hmod, hdel]
  refine ⟨hType, ?_⟩
  show generateSubject (analyzeFiles files) files = "update files ()".data
  obtain ⟨f1, f2, rest, rfl⟩ : ∃ f1 f2 rest, files = f1 :: f2 :: rest := by
    cases files with
    | nil => simp at hlen
    | cons a as =>
      cases as with
      | nil => simp at hlen
      | cons b bs => exact ⟨a, b, bs, rfl⟩
  show generateSubjectMulti (analyzeFiles (f1 :: f2 :: rest)) =
    "update files ()".data
  unfold generateSubjectMulti
  rw [hadded, hmod, hdel]
  decide

/-- Closed instance of the unbucketed-kinds theorem: two files, renamed and
copied, with paths matching no heuristic. -/
theorem unbucketed_kinds_witness :
    (analyzeDiff ⟨[⟨("alpha.ts".data), 'R', none⟩, ⟨("beta.ts".data), 'C', none⟩],
        [], 0, 0⟩).suggestedType = "chore".data ∧
    (analyzeDiff ⟨[⟨("alpha.ts".data), 'R', none⟩, ⟨("beta.ts".data), 'C', none⟩],
        [], 0, 0⟩).suggestedSubject = "update files ()".data :=
  (unbucketed_kinds
      [⟨("alpha.ts".data), 'R', none⟩, ⟨("beta.ts".data), 'C', none⟩]
      (by decide)).2 (by decide) (by decide) [] 0 0

/-! ## Claim C4 -/

theorem errors_keep_or_error (q : Prop) [Decidable q] (r : ValidationResult)
    (e : List Char) :
    (if q then r else pushError r e).errors =
      r.errors ++ (if q then [] else [e]) := by
  by_cases hq : q <;> simp [hq, pushError]

theorem errors_error_or_keep (q : Prop) [Decidable q] (r : ValidationResult)
    (e : List Char) :
    (if q then pushError r e else r).errors =
      r.errors ++ (if q then [e] else []) := by
  by_cases hq : q <;> simp [hq, pushError]

theorem errors_warn_or_keep (q : Prop) [Decidable q] (r : ValidationResult)
    (w : List Char) :
    (if q then pushWarning r w else r).errors = r.errors := by
  by_cases hq : q <;> simp [hq, pushWarning]

theorem applyChecks_errors (p : CommitMessage) (c : PluginConfig) :
    (applyChecks p c ⟨true, [], []⟩).errors =
      (if c.types.contains p.type then [] else [invalidTypeErr p.type c.types]) ++
      (if typePatternTest p.type then [] else [typeCaseErr]) ++
      (if c.scopeRequired && !truthy p.scope then [scopeRequiredErr] else []) ++
      (if truthy p.scope && !scopePatternTest (p.scope.getD []) then
        [scopeFormatErr] else []) ++
      (if c.subjectMaxLength < p.subject.length then
        [subjectMaxErr p.subject.length c.subjectMaxLength] else []) ++
      (if p.subject.length < c.subjectMinLength then
        [subjectMinErr p.subject.length c.subjectMinLength] else []) ++
      (if c.bodyRequired && !truthy p.body then [bodyRequiredErr] else []) := by
  unfold applyChecks
  simp only [errors_keep_or_error, errors_error_or_keep, errors_warn_or_keep]
  simp [List.append_assoc]

theorem parse_some_nonblank (msg : List Char) (p : CommitMessage)
    (h : parseCommitMessage msg = some p) : (trimL msg).isEmpty = false := by
  cases hb : (trimL msg).isEmpty with
  | false => rfl
  | true =>
    exfalso
    have ht : trimL msg = [] := List.isEmpty_iff.mp hb
    rw [parseCommitMessage, ht] at h
    simp [splitLines, splitOnC] at h

theorem validate_of_parse_some (msg : List Char) (c : PluginConfig)
    (p : CommitMessage) (h : parseCommitMessage msg = some p) :
    validateCommitMessage msg c = applyChecks p c ⟨true, [], []⟩ := by
  unfold validateCommitMessage
  rw [parse_some_nonblank msg p h]
  simp [h]

theorem subjectMaxErr_ne_invalidType (a b : Nat) (t : List Char)
    (ts : List (List Char)) : subjectMaxErr a b ≠ invalidTypeErr t ts := by
  intro h
  have h0 : (subjectMaxErr a b).get? 0 = (invalidTypeErr t ts).get? 0 := by rw [h]
  have h1 : (some 's' : Option Char) = some '无' := h0
  simp at h1

theorem subjectMaxErr_ne_typeCase (a b : Nat) :
    subjectMaxErr a b ≠ typeCaseErr := by
  intro h
  have h0 : (subjectMaxErr a b).get? 0 = typeCaseErr.get? 0 := by rw [h]
  have h1 : (some 's' : Option Char) = some '提' := h0
  simp at h1

theorem subjectMaxErr_ne_scopeRequired (a b : Nat) :
    subjectMaxErr a b ≠ scopeRequiredErr := by
  intro h
  have h0 : (subjectMaxErr a b).get? 1 = scopeRequiredErr.get? 1 := by rw [h]
  have h1 : (some 'u' : Option Char) = some 'c' := h0
  simp at h1

theorem subjectMaxErr_ne_scopeFormat (a b : Nat) :
    subjectMaxErr a b ≠ scopeFormatErr := by
  intro h
  have h0 : (subjectMaxErr a b).get? 1 = scopeFormatErr.get? 1 := by rw [h]
  have h1 : (some 'u' : Option Char) = some 'c' := h0
  simp at h1

theorem subjectMaxErr_ne_subjectMin (a b a2 b2 : Nat) :
    subjectMaxErr a b ≠ subjectMinErr a2 b2 := by
  intro h
  have h0 : (subjectMaxErr a b).get? 10 = (subjectMinErr a2 b2).get? 10 := by
    rw [h]
  have h1 : (some '超' : Option Char) = some '不' := h0
  simp at h1

theorem subjectMaxErr_ne_bodyRequired (a b : Nat) :
    subjectMaxErr a b ≠ bodyRequiredErr := by
  intro h
  have h0 : (subjectMaxErr a b).get? 0 = bodyRequiredErr.get? 0 := by rw [h]
  have h1 : (some 's' : Option Char) = some 'b' := h0
  simp at h1

theorem subjectMinErr_ne_invalidType (a b : Nat) (t : List Char)
    (ts : List (List Char)) : subjectMinErr a b ≠ invalidTypeErr t ts := by
  intro h
  have h0 : (subjectMinErr a b).get? 0 = (invalidTypeErr t ts).get? 0 := by rw [h]
  have h1 : (some 's' : Option Char) = some '无' := h0
  simp at h1

theorem subjectMinErr_ne_typeCase (a b : Nat) :
    subjectMinErr a b ≠ typeCaseErr := by
  intro h
  have h0 : (subjectMinErr a b).get? 0 = typeCaseErr.get? 0 := by rw [h]
  have h1 : (some 's' : Option Char) = some '提' := h0
  simp at h1

theorem subjectMinErr_ne_scopeRequired (a b : Nat) :
    subjectMinErr a b ≠ scopeRequiredErr := by
  intro h
  have h0 : (subjectMinErr a b).get? 1 = scopeRequiredErr.get? 1 := by rw [h]
  have h1 : (some 'u' : Option Char) = some 'c' := h0
  simp at h1

theorem subjectMinErr_ne_scopeFormat (a b : Nat) :
    subjectMinErr a b ≠ scopeFormatErr := by
  intro h
  have h0 : (subjectMinErr a b).get? 1 = scopeFormatErr.get? 1 := by rw [h]
  have h1 : (some 'u' : Option Char) = some 'c' := h0
  simp at h1

theorem subjectMinErr_ne_bodyRequired (a b : Nat) :
    subjectMinErr a b ≠ bodyRequiredErr := by
  intro h
  have h0 : (subjectMinErr a b).get? 0 = bodyRequiredErr.get? 0 := by rw [h]
  have h1 : (some 's' : Option Char) = some 'b' := h0
  simp at h1

theorem mem_opt_segment (x e : List Char) (q : Prop) [Decidable q] :
    x ∈ (if q then ([e] : List (List Char)) else []) ↔ q ∧ x = e := by
  by_cases hq : q <;> simp [hq]

theorem mem_opt_segment_neg (x e : List Char) (q : Prop) [Decidable q] :
    x ∈ (if q then ([] : List (List Char)) else [e]) ↔ ¬ q ∧ x = e := by
  by_cases hq : q <;> simp [hq]

/-- Closed counterexample to C4 as stated: with the single allowed type FEAT
the incremental validateType accepts the bare type FEAT, while the full
validator's type checks reject the same type through the lowercase-letters
pattern, so the two do not reject the same types. -/
theorem validator_subset_counterexample :
    validateType ("FEAT".data) ⟨[("FEAT".data)], [], 50, 3, false, false⟩ =
      ⟨true, [], []⟩ ∧
    validateCommitMessage ("FEAT: abc".data)
        ⟨[("FEAT".data)], [], 50, 3, false, false⟩ =
      ⟨false, [typeCaseErr], []⟩ :=
  ⟨by decide, by decide⟩

/-- C4, amended: validateType checks only membership of a non-empty type in
config.types (it does not apply the lowercase pattern the full validator
also checks); validateSubject applies exactly the two length thresholds
subjectMaxLength/subjectMinLength with the same error texts as the full
validator, and emits no advisories; on every parsed message, the full
validator reports the subject length errors exactly under the same
threshold conditions. -/
theorem validator_subset_amended :
    (∀ (c : PluginConfig) (t : List Char), t ≠ [] →
      validateType t c =
        ⟨c.types.contains t,
         if c.types.contains t then [] else [typeNotAllowedErr t], []⟩) ∧
    (∀ (c : PluginConfig) (s : List Char), (trimL s).isEmpty = false →
      validateSubject s c =
        ⟨!(decide (c.subjectMaxLength < s.length) ||
            decide (s.length < c.subjectMinLength)),
         (if c.subjectMaxLength < s.length then
            [subjectMaxErr s.length c.subjectMaxLength] else []) ++
           (if s.length < c.subjectMinLength then
            [subjectMinErr s.length c.subjectMinLength] else []),
         []⟩) ∧
    (∀ (c : PluginConfig) (msg : List Char) (p : CommitMessage),
      parseCommitMessage msg = some p →
      ((subjectMaxErr p.subject.length c.subjectMaxLength ∈
          (validateCommitMessage msg c).errors ↔
        c.subjectMaxLength < p.subject.length) ∧
       (subjectMinErr p.subject.length c.subjectMinLength ∈
          (validateCommitMessage msg c).errors ↔
        p.subject.length < c.subjectMinLength))) := by
  refine ⟨?_, ?_, ?_⟩
  · intro c t ht
    unfold validateType
    rw [if_neg (by simp [List.isEmpty_iff, ht])]
    cases hb : c.types.contains t <;> simp [hb, pushError]
  · intro c s hs
    unfold validateSubject
    rw [if_neg (by simp [hs])]
    by_cases h1 : c.subjectMaxLength < s.length <;>
      by_cases h2 : s.length < c.subjectMinLength <;>
      simp [h1, h2, pushError]
  · intro c msg p hp
    rw [validate_of_parse_some msg c p hp, applyChecks_errors]
    constructor
    · simp only [List.mem_append, mem_opt_segment, mem_opt_segment_neg]
      constructor
      · rintro ((((((⟨hq, he⟩ | ⟨hq, he⟩) | ⟨hq, he⟩) | ⟨hq, he⟩) |
          ⟨hq, -⟩) | ⟨hq, he⟩) | ⟨hq, he⟩)
        · exact absurd he (subjectMaxErr_ne_invalidType _ _ _ _)
        · exact absurd he (subjectMaxErr_ne_typeCase _ _)
        · exact absurd he (subjectMaxErr_ne_scopeRequired _ _)
        · exact absurd he (subjectMaxErr_ne_scopeFormat _ _)
        · exact hq
        · exact absurd he (subjectMaxErr_ne_subjectMin _ _ _ _)
        · exact absurd he (subjectMaxErr_ne_bodyRequired _ _)
      · intro h
        exact Or.inl (Or.inl (Or.inr ⟨h, trivial⟩))
    · simp only [List.mem_append, mem_opt_segment, mem_opt_segment_neg]
      constructor
      · rintro ((((((⟨hq, he⟩ | ⟨hq, he⟩) | ⟨hq, he⟩) | ⟨hq, he⟩) |
          ⟨hq, he⟩) | ⟨hq, -⟩) | ⟨hq, he⟩)
        · exact absurd he (subjectMinErr_ne_invalidType _ _ _ _)
        · exact absurd he (subjectMinErr_ne_typeCase _ _)
        · exact absurd he (subjectMinErr_ne_scopeRequired _ _)
        · exact absurd he (subjectMinErr_ne_scopeFormat _ _)
        · exact absurd he.symm (subjectMaxErr_ne_subjectMin _ _ _ _)
        · exact hq
        · exact absurd he (subjectMinErr_ne_bodyRequired _ _)
      · intro h
        exact Or.inl (Or.inr ⟨h, trivial⟩)

/-- Closed instance of the amended validator-subset theorem at the default
configuration, the bare type feat, the bare subject hello, and the message
feat: hello. -/
theorem validator_subset_amended_witness :
    (validateType ("feat".data) defaultConfig =
      ⟨defaultConfig.types.contains ("feat".data),
       if defaultConfig.types.contains ("feat".data) then []
       else [typeNotAllowedErr ("feat".data)], []⟩) ∧
    (validateSubject ("hello".data) defaultConfig =
      ⟨!(decide (defaultConfig.subjectMaxLength < ("hello".data).length) ||
          decide (("hello".data).length < defaultConfig.subjectMinLength)),
       (if defaultConfig.subjectMaxLength < ("hello".data).length then
          [subjectMaxErr ("hello".data).length defaultConfig.subjectMaxLength]
        else []) ++
         (if ("hello".data).length < defaultConfig.subjectMinLength then
          [subjectMinErr ("hello".data).length defaultConfig.subjectMinLength]
         else []),
       []⟩) ∧
    ((subjectMaxErr
        (CommitMessage.mk ("feat".data) none ("hello".data) none none
          ("feat: hello".data)).subject.length defaultConfig.subjectMaxLength ∈
        (validateCommitMessage ("feat: hello".data) defaultConfig).errors ↔
      defaultConfig.subjectMaxLength <
        (CommitMessage.mk ("feat".data) none ("hello".data) none none
          ("feat: hello".data)).subject.length) ∧
     (subjectMinErr
        (CommitMessage.mk ("feat".data) none ("hello".data) none none
          ("feat: hello".data)).subject.length defaultConfig.subjectMinLength ∈
        (validateCommitMessage ("feat: hello".data) defaultConfig).errors ↔
      (CommitMessage.mk ("feat".data) none ("hello".data) none none
          ("feat: hello".data)).subject.length < defaultConfig.subjectMinLength)) :=
  ⟨validator_subset_amended.1 defaultConfig ("feat".data) (by decide),
   validator_subset_amended.2.1 defaultConfig ("hello".data) (by decide),
   validator_subset_amended.2.2 defaultConfig ("feat: hello".data)
     (CommitMessage.mk ("feat".data) none ("hello".data) none none
       ("feat: hello".data)) (by decide)⟩

/-! ## Parser lemmas for claims C1 and C6 -/

theorem takeWhile_append_all {α : Type} (p : α → Bool) (xs ys : List α)
    (h : ∀ c ∈ xs, p c = true) :
    (xs ++ ys).takeWhile p = xs ++ ys.takeWhile p := by
  induction xs with
  | nil => simp
  | cons c cs ih =>
    have hc := h c (by simp)
    rw [List.cons_append, List.takeWhile_cons, if_pos hc,
      ih (fun d hd => h d (by simp [hd]))]
    rfl

theorem dropWhile_append_all {α : Type} (p : α → Bool) (xs ys : List α)
    (h : ∀ c ∈ xs, p c = true) :
    (xs ++ ys).dropWhile p = ys.dropWhile p := by
  induction xs with
  | nil => simp
  | cons c cs ih =>
    have hc := h c (by simp)
    rw [List.cons_append, List.dropWhile_cons, if_pos hc]
    exact ih (fun d hd => h d (by simp [hd]))

theorem takeWhile_cons_neg {α : Type} (p : α → Bool) (c : α) (l : List α)
    (h : p c = false) : (c :: l).takeWhile p = [] := by
  simp [List.takeWhile_cons, h]

theorem dropWhile_cons_neg {α : Type} (p : α → Bool) (c : α) (l : List α)
    (h : p c = false) : (c :: l).dropWhile p = c :: l := by
  simp [List.dropWhile_cons, h]

theorem length_dropWhile_le {α : Type} (p : α → Bool) (l : List α) :
    (l.dropWhile p).length ≤ l.length := by
  induction l with
  | nil => simp
  | cons c cs ih =>
    rw [List.dropWhile_cons]
    split
    · exact Nat.le_trans ih (by simp)
    · simp

theorem dropWhile_full_length {α : Type} (p : α → Bool) (l : List α)
    (h : (l.dropWhile p).length = l.length) : l.dropWhile p = l := by
  induction l with
  | nil => rfl
  | cons c cs ih =>
    by_cases hc : p c = true
    · exfalso
      rw [List.dropWhile_cons, if_pos hc] at h
      have := length_dropWhile_le p cs
      simp at h
      omega
    · rw [List.dropWhile_cons, if_neg hc]

theorem dropLead_of_trimmed (s : List Char) (h : trimL s = s) :
    dropLead s = s := by
  unfold dropLead
  have h1 : (trimL s).length ≤ (s.dropWhile isJsSpace).length := by
    unfold trimL dropTrail dropLead
    rw [List.length_reverse]
    exact Nat.le_trans (length_dropWhile_le _ _) (by rw [List.length_reverse])
  have h2 : (s.dropWhile isJsSpace).length ≤ s.length := length_dropWhile_le _ _
  have h3 : (trimL s).length = s.length := by rw [h]
  exact dropWhile_full_length _ _ (by omega)

theorem dropTrail_of_trimmed (s : List Char) (h : trimL s = s) :
    dropTrail s = s := by
  have h1 := dropLead_of_trimmed s h
  calc dropTrail s = dropTrail (dropLead s) := by rw [h1]
    _ = s := h

theorem head_not_ws_of_dropLead (s : List Char) (h : dropLead s = s) :
    ∀ c, s.head? = some c → isJsSpace c = false := by
  intro c hc
  cases s with
  | nil => simp at hc
  | cons d ds =>
    have hcd : c = d := by
      have := hc
      simp at this
      exact this.symm
    have hgoal : isJsSpace d = false := by
      by_cases hw : isJsSpace d = true
      · exfalso
        unfold dropLead at h
        rw [List.dropWhile_cons, if_pos hw] at h
        have hlen := congrArg List.length h
        have hle := length_dropWhile_le isJsSpace ds
        simp at hlen
        omega
      · exact Bool.eq_false_iff.mpr hw
    rw [hcd]
    exact hgoal

theorem last_not_ws_of_dropTrail (s : List Char) (h : dropTrail s = s) :
    ∀ c, s.getLast? = some c → isJsSpace c = false := by
  intro c hc
  have hrev : s.reverse.dropWhile isJsSpace = s.reverse := by
    have := congrArg List.reverse h
    simpa [dropTrail] using this
  apply head_not_ws_of_dropLead s.reverse hrev
  rw [List.head?_reverse]
  exact hc

theorem trimL_eq_self_of_ends (s : List Char)
    (h1 : ∀ c, s.head? = some c → isJsSpace c = false)
    (h2 : ∀ c, s.getLast? = some c → isJsSpace c = false) : trimL s = s := by
  have hlead : dropLead s = s := by
    unfold dropLead
    cases hs : s with
    | nil => rfl
    | cons c cs =>
      rw [List.dropWhile_cons, if_neg]
      rw [h1 c (by rw [hs]; rfl)]
      simp
  unfold trimL
  rw [hlead]
  show (s.reverse.dropWhile isJsSpace).reverse = s
  have : s.reverse.dropWhile isJsSpace = s.reverse := by
    cases hs : s.reverse with
    | nil => rfl
    | cons c cs =>
      rw [List.dropWhile_cons, if_neg]
      have hc : s.getLast? = some c := by
        rw [← List.head?_reverse, hs]
        rfl
      rw [h2 c hc]
      simp
  rw [this, List.reverse_reverse]

theorem trimL_eq_nil_iff (l : List Char) :
    trimL l = [] ↔ ∀ c ∈ l, isJsSpace c = true := by
  constructor
  · intro h c hc
    have h2 : (dropLead l).reverse.dropWhile isJsSpace = [] :=
      List.reverse_eq_nil_iff.mp h
    have hdt : ∀ d ∈ dropLead l, isJsSpace d = true := by
      intro d hd
      exact List.dropWhile_eq_nil_iff.mp h2 d (by simp [hd])
    have hsplit : l = l.takeWhile isJsSpace ++ dropLead l :=
      (List.takeWhile_append_dropWhile isJsSpace l).symm
    rw [hsplit] at hc
    rcases List.mem_append.mp hc with h1 | h1
    · exact List.mem_takeWhile_imp h1
    · exact hdt c h1
  · intro h
    have h1 : dropLead l = [] := List.dropWhile_eq_nil_iff.mpr (fun c hc => h c hc)
    unfold trimL
    rw [h1]
    rfl

theorem splitOnC_append_sep (sep : Char) (x y : List Char) :
    splitOnC sep (x ++ sep :: y) = splitOnC sep x ++ splitOnC sep y := by
  induction x with
  | nil => simp [splitOnC]
  | cons c cs ih =>
    rw [List.cons_append]
    by_cases hc : c = sep
    · subst hc
      simp only [splitOnC]
      rw [if_pos trivial, if_pos trivial, ih]
      rfl
    · simp only [splitOnC]
      rw [if_neg hc, if_neg hc, ih]
      rcases hm : splitOnC sep cs with _ | ⟨l, ls⟩
      · exact absurd hm (splitOnC_ne_nil sep cs)
      · rfl

theorem splitOnC_no_sep (sep : Char) (x : List Char)
    (h : ∀ c ∈ x, c ≠ sep) : splitOnC sep x = [x] := by
  induction x with
  | nil => rfl
  | cons c cs ih =>
    unfold splitOnC
    rw [if_neg (h c (by simp)), ih (fun d hd => h d (by simp [hd]))]

theorem joinLines_append (xs ys : List (List Char)) (hx : xs ≠ [])
    (hy : ys ≠ []) :
    joinLines (xs ++ ys) = joinLines xs ++ '\n' :: joinLines ys := by
  induction xs with
  | nil => exact absurd rfl hx
  | cons l rest ih =>
    cases rest with
    | nil =>
      cases ys with
      | nil => exact absurd rfl hy
      | cons y ys2 => rfl
    | cons l2 rest2 =>
      cases ys with
      | nil => exact absurd rfl hy
      | cons y ys2 =>
        have ihh := ih (by simp)
        show joinLines (l :: (l2 :: (rest2 ++ y :: ys2))) = _
        show l ++ '\n' :: joinLines (l2 :: (rest2 ++ y :: ys2)) = _
        rw [show l2 :: (rest2 ++ y :: ys2) = l2 :: rest2 ++ y :: ys2 from rfl,
          ihh]
        show _ = (l ++ '\n' :: joinLines (l2 :: rest2)) ++ '\n' :: joinLines (y :: ys2)
        simp

theorem findFirstIdx_eq_none_iff (p : List Char → Bool)
    (ls : List (List Char)) :
    findFirstIdx p ls = none ↔ ∀ l ∈ ls, p l = false := by
  induction ls with
  | nil => simp [findFirstIdx]
  | cons x xs ih =>
    unfold findFirstIdx
    by_cases hx : p x = true
    · simp [hx]
    · have hx2 : p x = false := Bool.eq_false_iff.mpr hx
      simp [hx2, ih]

theorem findFirstIdx_append_of_none (p : List Char → Bool)
    (xs ys : List (List Char)) (h : ∀ l ∈ xs, p l = false) :
    findFirstIdx p (xs ++ ys) =
      (findFirstIdx p ys).map (fun i => i + xs.length) := by
  induction xs with
  | nil => simp
  | cons x xs2 ih =>
    rw [List.cons_append]
    show (if p x = true then some 0
      else (findFirstIdx p (xs2 ++ ys)).map (fun i => i + 1)) = _
    rw [if_neg (by rw [h x (by simp)]; simp),
      ih (fun l hl => h l (by simp [hl]))]
    rcases findFirstIdx p ys with _ | i
    · rfl
    · show some (i + xs2.length + 1) = some (i + (x :: xs2).length)
      rw [List.length_cons, Nat.add_assoc]

theorem findFirstIdx_cons_pos (p : List Char → Bool) (x : List Char)
    (xs : List (List Char)) (h : p x = true) :
    findFirstIdx p (x :: xs) = some 0 := by
  unfold findFirstIdx
  rw [if_pos h]

theorem wordChar_not_ws (c : Char) (h : isWordChar c = true) :
    isJsSpace c = false := by
  simp only [isWordChar, Bool.or_eq_true, Bool.and_eq_true,
    decide_eq_true_eq] at h
  simp only [isJsSpace, Bool.or_eq_false_iff, decide_eq_false_iff_not]
  omega

theorem wordChar_ne_nl (c : Char) (h : isWordChar c = true) : c ≠ '\n' := by
  intro he
  rw [he] at h
  exact absurd h (by decide)

theorem notLineTerm_ne_nl (c : Char) (h : isLineTerm c = false) : c ≠ '\n' := by
  intro he
  rw [he] at h
  exact absurd h (by decide)

theorem matchSubject_clean (subj : List Char) (hs1 : subj ≠ [])
    (hs2 : ∀ c ∈ subj, isLineTerm c = false) (hs3 : dropLead subj = subj) :
    matchSubject (' ' :: subj) = some subj := by
  unfold matchSubject
  have hdw : (' ' :: subj).dropWhile isJsSpace = subj := by
    rw [List.dropWhile_cons, if_pos (by decide)]
    exact hs3
  simp only [hdw]
  rw [if_neg (by simp [List.isEmpty_iff, hs1])]
  have hany : subj.any isLineTerm = false := by
    rw [List.any_eq_false]
    intro c hc
    rw [hs2 c hc]
    simp
  rw [if_neg (by rw [hany]; simp)]

theorem matchHeader_no_scope (t subj : List Char)
    (ht1 : t ≠ []) (ht2 : ∀ c ∈ t, isWordChar c = true)
    (hs1 : subj ≠ []) (hs2 : ∀ c ∈ subj, isLineTerm c = false)
    (hs3 : dropLead subj = subj) :
    matchHeader (t ++ ':' :: ' ' :: subj) = some (t, none, subj) := by
  have e1 : (t ++ ':' :: ' ' :: subj).takeWhile isWordChar = t := by
    rw [takeWhile_append_all _ t _ ht2, takeWhile_cons_neg _ _ _ (by decide),
      List.append_nil]
  have e2 : (t ++ ':' :: ' ' :: subj).dropWhile isWordChar =
      ':' :: ' ' :: subj := by
    rw [dropWhile_append_all _ t _ ht2, dropWhile_cons_neg _ _ _ (by decide)]
  unfold matchHeader
  simp only [e1, e2]
  rw [if_neg (by simp [List.isEmpty_iff, ht1])]
  rw [matchSubject_clean subj hs1 hs2 hs3]
  rfl

theorem matchHeader_with_scope (t s subj : List Char)
    (ht1 : t ≠ []) (ht2 : ∀ c ∈ t, isWordChar c = true)
    (hsc1 : s ≠ []) (hsc2 : ∀ c ∈ s, c ≠ ')')
    (hs1 : subj ≠ []) (hs2 : ∀ c ∈ subj, isLineTerm c = false)
    (hs3 : dropLead subj = subj) :
    matchHeader (t ++ '(' :: (s ++ ')' :: ':' :: ' ' :: subj)) =
      some (t, some s, subj) := by
  have e1 : (t ++ '(' :: (s ++ ')' :: ':' :: ' ' :: subj)).takeWhile isWordChar
      = t := by
    rw [takeWhile_append_all _ t _ ht2, takeWhile_cons_neg _ _ _ (by decide),
      List.append_nil]
  have e2 : (t ++ '(' :: (s ++ ')' :: ':' :: ' ' :: subj)).dropWhile isWordChar
      = '(' :: (s ++ ')' :: ':' :: ' ' :: subj) := by
    rw [dropWhile_append_all _ t _ ht2, dropWhile_cons_neg _ _ _ (by decide)]
  have e3 : (s ++ ')' :: ':' :: ' ' :: subj).takeWhile (fun c => c != ')') =
      s := by
    rw [takeWhile_append_all _ s _
        (fun c hc => by simp [bne_iff_ne, hsc2 c hc]),
      takeWhile_cons_neg _ _ _ (by decide), List.append_nil]
  have e4 : (s ++ ')' :: ':' :: ' ' :: subj).dropWhile (fun c => c != ')') =
      ')' :: ':' :: ' ' :: subj := by
    rw [dropWhile_append_all _ s _
        (fun c hc => by simp [bne_iff_ne, hsc2 c hc]),
      dropWhile_cons_neg _ _ _ (by decide)]
  unfold matchHeader
  simp only [e1, e2, e3, e4]
  rw [if_neg (by simp [List.isEmpty_iff, ht1])]
  rw [if_neg (by simp [List.isEmpty_iff, hsc1])]
  rw [matchSubject_clean subj hs1 hs2 hs3]
  rfl

theorem dropLead_cons (c : Char) (cs : List Char) :
    dropLead (c :: cs) = if isJsSpace c then dropLead cs else c :: cs := by
  show (c :: cs).dropWhile isJsSpace = _
  rw [List.dropWhile_cons]
  rfl

theorem dropLead_append (x y : List Char) :
    dropLead (x ++ y) =
      if (dropLead x).isEmpty then dropLead y else dropLead x ++ y := by
  induction x with
  | nil => simp [dropLead]
  | cons c cs ih =>
    by_cases hc : isJsSpace c = true
    · simp only [List.cons_append, dropLead_cons, hc, if_true]
      exact ih
    · have hcf : isJsSpace c = false := Bool.eq_false_iff.mpr hc
      simp [List.cons_append, dropLead_cons, hcf]

theorem dropTrail_append_ws (y : List Char) (c : Char)
    (hc : isJsSpace c = true) : dropTrail (y ++ [c]) = dropTrail y := by
  unfold dropTrail
  rw [List.reverse_append]
  show ((c :: y.reverse).dropWhile isJsSpace).reverse = _
  rw [List.dropWhile_cons, if_pos hc]

theorem trimL_append_ws (x : List Char) (c : Char) (hc : isJsSpace c = true) :
    trimL (x ++ [c]) = trimL x := by
  unfold trimL
  rw [dropLead_append]
  by_cases hx : (dropLead x).isEmpty = true
  · rw [if_pos hx]
    have h1 : dropLead [c] = [] := by
      show [c].dropWhile isJsSpace = []
      rw [List.dropWhile_cons, if_pos hc]
      rfl
    rw [h1, List.isEmpty_iff.mp hx]
  · rw [if_neg hx, dropTrail_append_ws _ c hc]

theorem splitLines_cons_nl (z : List Char) :
    splitLines ('\n' :: z) = [] :: splitLines z := by
  show splitOnC '\n' ('\n' :: z) = _
  unfold splitOnC
  rw [if_pos rfl]
  rfl

theorem isBlankLine_nil : isBlankLine [] = true := by decide

theorem isFooterLine_nil : isFooterLine [] = false := by decide

theorem splitLines_head_of_trimmed (b : List Char) (hb : b ≠ [])
    (ht : trimL b = b) :
    ∃ l ls, splitLines b = l :: ls ∧ isBlankLine l = false := by
  cases b with
  | nil => exact absurd rfl hb
  | cons c cs =>
    have hcw : isJsSpace c = false :=
      head_not_ws_of_dropLead _ (dropLead_of_trimmed _ ht) c rfl
    have hcnl : c ≠ '\n' := by
      intro he
      rw [he] at hcw
      exact absurd hcw (by decide)
    have h2 : ∃ l ls, splitLines (c :: cs) = (c :: l) :: ls := by
      show ∃ l ls, splitOnC '\n' (c :: cs) = (c :: l) :: ls
      unfold splitOnC
      rw [if_neg hcnl]
      rcases hm : splitOnC '\n' cs with _ | ⟨l, ls⟩
      · exact absurd hm (splitOnC_ne_nil '\n' cs)
      · exact ⟨l, ls, rfl⟩
    rcases h2 with ⟨l, ls, hl⟩
    refine ⟨c :: l, ls, hl, ?_⟩
    have hnn : trimL (c :: l) ≠ [] := by
      intro hnil
      have := (trimL_eq_nil_iff (c :: l)).mp hnil c (by simp)
      rw [this] at hcw
      exact absurd hcw (by simp)
    show (trimL (c :: l)).isEmpty = false
    rcases htr : trimL (c :: l) with _ | ⟨x, xs⟩
    · exact absurd htr hnn
    · rfl

theorem parse_decomp (raw hdr : List Char) (rest : List (List Char))
    (t : List Char) (sc : Option (List Char)) (subj : List Char)
    (hsplit : splitLines (trimL raw) = hdr :: rest)
    (hne : hdr ≠ [])
    (htrim : trimL hdr = hdr)
    (hmatch : matchHeader hdr = some (t, sc, subj)) :
    parseCommitMessage raw =
      some ⟨t, sc, subj, (parseBodyFooter rest).1, (parseBodyFooter rest).2,
        raw⟩ := by
  unfold parseCommitMessage
  simp only [hsplit]
  rw [if_neg (by simp [List.isEmpty_iff, hne]), htrim, hmatch]

theorem findFirstIdx_cons_neg (p : List Char → Bool) (x : List Char)
    (xs : List (List Char)) (h : p x = false) :
    findFirstIdx p (x :: xs) = (findFirstIdx p xs).map (fun i => i + 1) := by
  show (if p x = true then some 0 else (findFirstIdx p xs).map (fun i => i + 1))
    = _
  rw [if_neg (by rw [h]; simp)]

theorem toOpt_of_ne_nil (b : List Char) (hb : b ≠ []) : toOpt b = some b := by
  unfold toOpt
  rw [if_neg (by simp [List.isEmpty_iff, hb])]

theorem parseBodyFooter_nil : parseBodyFooter [] = (none, none) := rfl

theorem parseBodyFooter_body_only (b : List Char) (hb1 : b ≠ [])
    (hb2 : trimL b = b)
    (hmk : findFirstIdx isFooterLine (splitLines b) = none ∨
      findFirstIdx isFooterLine (splitLines b) = some 0) :
    parseBodyFooter ([] :: splitLines b) = (some b, none) := by
  obtain ⟨l, ls, hl, hbl⟩ := splitLines_head_of_trimmed b hb1 hb2
  have hdrop : ([] :: splitLines b).dropWhile isBlankLine = splitLines b := by
    rw [List.dropWhile_cons, if_pos (by rw [isBlankLine_nil]), hl,
      dropWhile_cons_neg _ _ _ hbl]
  have hbody : toOpt (trimL (joinLines (splitLines b))) = some b := by
    rw [joinLines_splitLines, hb2, toOpt_of_ne_nil b hb1]
  have hne2 : (splitLines b).isEmpty = false := by
    rw [hl]
    rfl
  unfold parseBodyFooter
  simp only [hdrop]
  rcases hmk with hmk | hmk
  · rw [hmk]
    show (if (splitLines b).isEmpty = true then none
      else toOpt (trimL (joinLines (splitLines b))), none) = (some b, none)
    rw [if_neg (by rw [hne2]; simp), hbody]
  · rw [hmk]
    show ((if (0:Nat) < 0 then
        (toOpt (trimL (joinLines ((splitLines b).take 0))),
          toOpt (trimL (joinLines ((splitLines b).drop 0))))
      else (if (splitLines b).isEmpty = true then none
        else toOpt (trimL (joinLines (splitLines b))), none))) = (some b, none)
    rw [if_neg (by omega), if_neg (by rw [hne2]; simp), hbody]

theorem parseBodyFooter_body_footer (b f : List Char) (hb1 : b ≠ [])
    (hb2 : trimL b = b) (hf1 : f ≠ []) (hf2 : trimL f = f)
    (hnb : ∀ l ∈ splitLines b, isFooterLine l = false)
    (hmf : isFooterLine ((splitLines f).headI) = true) :
    parseBodyFooter ([] :: (splitLines b ++ [] :: splitLines f)) =
      (some b, some f) := by
  obtain ⟨lb, lbs, hlb, hblb⟩ := splitLines_head_of_trimmed b hb1 hb2
  obtain ⟨lf, lfs, hlf, hblf⟩ := splitLines_head_of_trimmed f hf1 hf2
  have hmf2 : isFooterLine lf = true := by
    rw [hlf] at hmf
    simpa using hmf
  have hdrop : ([] :: (splitLines b ++ [] :: splitLines f)).dropWhile
      isBlankLine = splitLines b ++ [] :: splitLines f := by
    rw [List.dropWhile_cons, if_pos (by rw [isBlankLine_nil]), hlb,
      List.cons_append, dropWhile_cons_neg _ _ _ hblb]
  have hidx : findFirstIdx isFooterLine (splitLines b ++ [] :: splitLines f) =
      some (0 + 1 + (splitLines b).length) := by
    rw [findFirstIdx_append_of_none _ _ _ hnb,
      findFirstIdx_cons_neg _ _ _ isFooterLine_nil, hlf,
      findFirstIdx_cons_pos _ _ _ hmf2]
    rfl
  have hlen : (splitLines b ++ [[]]).length = 0 + 1 + (splitLines b).length := by
    simp
    omega
  have htake : (splitLines b ++ [] :: splitLines f).take
      (0 + 1 + (splitLines b).length) = splitLines b ++ [[]] := by
    rw [List.append_cons]
    exact List.take_left' hlen
  have hdrop2 : (splitLines b ++ [] :: splitLines f).drop
      (0 + 1 + (splitLines b).length) = splitLines f := by
    rw [List.append_cons]
    exact List.drop_left' hlen
  have hbody : toOpt (trimL (joinLines (splitLines b ++ [[]]))) = some b := by
    rw [joinLines_append _ _ (by rw [hlb]; simp) (by simp)]
    rw [show joinLines [[]] = [] from rfl, joinLines_splitLines]
    rw [show b ++ '\n' :: [] = b ++ ['\n'] from rfl,
      trimL_append_ws b '\n' (by decide), hb2, toOpt_of_ne_nil b hb1]
  have hfoot : toOpt (trimL (joinLines (splitLines f))) = some f := by
    rw [joinLines_splitLines, hf2, toOpt_of_ne_nil f hf1]
  unfold parseBodyFooter
  simp only [hdrop]
  rw [hidx]
  show (if 0 < 0 + 1 + (splitLines b).length then
      (toOpt (trimL (joinLines
        (List.take (0 + 1 + (splitLines b).length) (splitLines b ++ [] :: splitLines f)))),
       toOpt (trimL (joinLines
        (List.drop (0 + 1 + (splitLines b).length) (splitLines b ++ [] :: splitLines f)))))
    else
      (if (splitLines b ++ [] :: splitLines f).isEmpty = true then none
       else toOpt (trimL (joinLines (splitLines b ++ [] :: splitLines f))),
       none)) = (some b, some f)
  rw [if_pos (by omega), htake, hdrop2, hbody, hfoot]


/-! ## C1: round-trip of build then parse -/

theorem getLast?_ne_none (y : List Char) (hy : y ≠ []) : y.getLast? ≠ none := by
  intro h
  rw [← List.head?_reverse] at h
  have hr : y.reverse = [] := by
    rcases he : y.reverse with _ | ⟨c, cs⟩
    · rfl
    · rw [he] at h
      simp at h
  exact hy (List.reverse_eq_nil_iff.mp hr)

theorem head?_append_left (x y : List Char) (hx : x ≠ []) :
    (x ++ y).head? = x.head? := by
  cases x with
  | nil => exact absurd rfl hx
  | cons c cs => rfl

theorem getLast?_append_right (x y : List Char) (hy : y ≠ []) :
    (x ++ y).getLast? = y.getLast? := by
  rw [List.getLast?_append]
  rcases hl : y.getLast? with _ | d
  · exact absurd hl (getLast?_ne_none y hy)
  · rfl

theorem header_ne_nil (t sp tail : List Char) (ht1 : t ≠ []) :
    t ++ sp ++ tail ≠ [] := by
  cases t with
  | nil => exact absurd rfl ht1
  | cons c cs => simp

theorem header_head_not_ws (t sp tail : List Char) (ht1 : t ≠ [])
    (ht2 : ∀ c ∈ t, isWordChar c = true) :
    ∀ c, (t ++ sp ++ tail).head? = some c → isJsSpace c = false := by
  intro c hc
  cases t with
  | nil => exact absurd rfl ht1
  | cons d ds =>
    have hc2 : (some d : Option Char) = some c := hc
    injection hc2 with h
    rw [← h]
    exact wordChar_not_ws d (ht2 d (by simp))

theorem header_last_not_ws (x subj : List Char) (hs1 : subj ≠ [])
    (hs3 : trimL subj = subj) :
    ∀ c, (x ++ ':' :: ' ' :: subj).getLast? = some c → isJsSpace c = false := by
  intro c hc
  have h1 : (x ++ ':' :: ' ' :: subj).getLast? = subj.getLast? := by
    rw [show x ++ ':' :: ' ' :: subj = (x ++ [':', ' ']) ++ subj by simp]
    exact getLast?_append_right _ _ hs1
  rw [h1] at hc
  exact last_not_ws_of_dropTrail subj (dropTrail_of_trimmed subj hs3) c hc

theorem header_trim (t sp subj : List Char) (ht1 : t ≠ [])
    (ht2 : ∀ c ∈ t, isWordChar c = true) (hs1 : subj ≠ [])
    (hs3 : trimL subj = subj) :
    trimL (t ++ sp ++ ':' :: ' ' :: subj) = t ++ sp ++ ':' :: ' ' :: subj :=
  trimL_eq_self_of_ends _ (header_head_not_ws t sp _ ht1 ht2)
    (header_last_not_ws (t ++ sp) subj hs1 hs3)

theorem header_no_nl (t : List Char) (sc : Option (List Char)) (subj : List Char)
    (ht2 : ∀ c ∈ t, isWordChar c = true) (hsc : wfScopeTok sc)
    (hs2 : ∀ c ∈ subj, isLineTerm c = false) :
    ∀ c ∈ t ++ (if truthy sc then '(' :: (sc.getD [] ++ [')']) else []) ++
      ':' :: ' ' :: subj, c ≠ '\n' := by
  intro c hc
  rcases List.mem_append.mp hc with h1 | h1
  · rcases List.mem_append.mp h1 with h2 | h2
    · exact wordChar_ne_nl c (ht2 c h2)
    · rcases sc with _ | s
      · simp [truthy] at h2
      · rw [if_pos (by simp [truthy, List.isEmpty_iff, hsc.1])] at h2
        simp only [Option.getD_some] at h2
        rcases List.mem_cons.mp h2 with h3 | h3
        · rw [h3]; decide
        · rcases List.mem_append.mp h3 with h4 | h4
          · exact (hsc.2 c h4).2
          · have hc4 : c = ')' := by simpa using h4
            rw [hc4]; decide
  · rcases List.mem_cons.mp h1 with h2 | h2
    · rw [h2]; decide
    · rcases List.mem_cons.mp h2 with h3 | h3
      · rw [h3]; decide
      · exact notLineTerm_ne_nl c (hs2 c h3)

theorem matchHeader_of_wf (t : List Char) (sc : Option (List Char))
    (subj : List Char) (ht : wfTypeTok t) (hsc : wfScopeTok sc)
    (hs : wfSubjectText subj) :
    matchHeader (t ++ (if truthy sc then '(' :: (sc.getD [] ++ [')']) else [])
      ++ ':' :: ' ' :: subj) = some (t, sc, subj) := by
  have hdl : dropLead subj = subj := dropLead_of_trimmed subj hs.2.2
  rcases sc with _ | s
  · show matchHeader (t ++ [] ++ ':' :: ' ' :: subj) = some (t, none, subj)
    rw [List.append_nil]
    exact matchHeader_no_scope t subj ht.1 ht.2 hs.1 hs.2.1 hdl
  · obtain ⟨hsc1, hsc2⟩ := hsc
    rw [if_pos (by simp [truthy, List.isEmpty_iff, hsc1])]
    simp only [Option.getD_some]
    rw [show t ++ '(' :: (s ++ [')']) ++ ':' :: ' ' :: subj =
      t ++ '(' :: (s ++ ')' :: ':' :: ' ' :: subj) by simp]
    exact matchHeader_with_scope t s subj ht.1 ht.2 hsc1
      (fun c hc => (hsc2 c hc).1) hs.1 hs.2.1 hdl

theorem build_eq (t : List Char) (sc : Option (List Char)) (subj : List Char)
    (body footer : Option (List Char)) :
    buildCommitMessage t sc subj body footer =
      (t ++ (if truthy sc then '(' :: (sc.getD [] ++ [')']) else []) ++
        ':' :: ' ' :: subj) ++
      ((if truthy body then '\n' :: '\n' :: body.getD [] else []) ++
       (if truthy footer then '\n' :: '\n' :: footer.getD [] else [])) := by
  unfold buildCommitMessage
  simp [List.append_assoc]

theorem splitLines_append_nl (x y : List Char) :
    splitLines (x ++ '\n' :: y) = splitLines x ++ splitLines y :=
  splitOnC_append_sep '\n' x y


/-- C1 counterexample: the claim preserves body and footer whenever they do
not start with a footer marker, but the parser keeps a footer only when its
first line does carry a footer marker.  Building with footer "world" (which
is free of the markers) and re-parsing loses the footer into the body; and a
non-empty type containing a space (free of the markers) makes the rebuilt
text fail to parse at all. -/
theorem roundtrip_counterexample :
    (∀ kw ∈ footerKeywords, kw.isPrefixOf ("world".data) = false) ∧
    (parseCommitMessage (buildCommitMessage ("feat".data) none ("x".data) none
      (some ("world".data)))).map CommitMessage.footer = some none ∧
    parseCommitMessage
      (buildCommitMessage ("fe at".data) none ("x".data) none none) = none :=
  ⟨by decide, rfl, rfl⟩

/-- C1 (amended): for a well-formed type token (word characters), scope
token (no closing parenthesis or newline), trimmed single-line subject and
trimmed non-empty optional body/footer blocks, parsing the built text always
succeeds and preserves type, scope and subject; body and footer are
preserved exactly on the configurations that survive the footer heuristic:
no footer with no footer-marker line in the body past its first line, or a
footer whose first line carries a footer marker with a marker-free body. -/
theorem roundtrip_amended (t : List Char) (sc : Option (List Char))
    (subj : List Char) (body footer : Option (List Char))
    (ht : wfTypeTok t) (hsc : wfScopeTok sc) (hs : wfSubjectText subj)
    (hb : wfBlock body) (hf : wfBlock footer) :
    ∃ p, parseCommitMessage (buildCommitMessage t sc subj body footer) =
        some p ∧
      p.type = t ∧ p.scope = sc ∧ p.subject = subj ∧
      (roundTripBF body footer → p.body = body ∧ p.footer = footer) := by
  obtain ⟨hdr, hhdr⟩ : ∃ h : List Char,
      h = t ++ (if truthy sc then '(' :: (sc.getD [] ++ [')']) else []) ++
        ':' :: ' ' :: subj := ⟨_, rfl⟩
  have hmatch : matchHeader hdr = some (t, sc, subj) := by
    rw [hhdr]
    exact matchHeader_of_wf t sc subj ht hsc hs
  have hne : hdr ≠ [] := by
    rw [hhdr]
    exact header_ne_nil t _ _ ht.1
  have htrimh : trimL hdr = hdr := by
    rw [hhdr]
    exact header_trim t _ subj ht.1 ht.2 hs.1 hs.2.2
  have hnl : ∀ c ∈ hdr, c ≠ '\n' := by
    rw [hhdr]
    exact header_no_nl t sc subj ht.2 hsc hs.2.1
  have hsplith : splitLines hdr = [hdr] := splitOnC_no_sep '\n' hdr hnl
  have hheadws : ∀ c, hdr.head? = some c → isJsSpace c = false := by
    rw [hhdr]
    exact header_head_not_ws t _ _ ht.1 ht.2
  have hbuild : buildCommitMessage t sc subj body footer =
      hdr ++ ((if truthy body then '\n' :: '\n' :: body.getD [] else []) ++
        (if truthy footer then '\n' :: '\n' :: footer.getD [] else [])) := by
    rw [hhdr]
    exact build_eq t sc subj body footer
  rcases body with _ | b
  · rcases footer with _ | f
    · have hB : buildCommitMessage t sc subj none none = hdr := by
        rw [hbuild]
        simp [truthy]
      have hp := parse_decomp hdr hdr [] t sc subj
        (by rw [htrimh, hsplith]) hne htrimh hmatch
      rw [← hB] at hp
      exact ⟨_, hp, rfl, rfl, rfl, fun _ => ⟨rfl, rfl⟩⟩
    · obtain ⟨hf1, hf2⟩ := hf
      have hB : buildCommitMessage t sc subj none (some f) =
          hdr ++ '\n' :: ('\n' :: f) := by
        rw [hbuild]
        simp [truthy, List.isEmpty_iff, hf1]
      have hsplitB : splitLines (hdr ++ '\n' :: ('\n' :: f)) =
          hdr :: [] :: splitLines f := by
        rw [splitLines_append_nl hdr ('\n' :: f), hsplith, splitLines_cons_nl f]
        rfl
      have htrimB : trimL (hdr ++ '\n' :: ('\n' :: f)) =
          hdr ++ '\n' :: ('\n' :: f) := by
        apply trimL_eq_self_of_ends
        · intro c hc
          rw [head?_append_left hdr _ hne] at hc
          exact hheadws c hc
        · intro c hc
          rw [show hdr ++ '\n' :: ('\n' :: f) = (hdr ++ ['\n', '\n']) ++ f
            by simp] at hc
          rw [getLast?_append_right _ f hf1] at hc
          exact last_not_ws_of_dropTrail f (dropTrail_of_trimmed f hf2) c hc
      have hp := parse_decomp (hdr ++ '\n' :: ('\n' :: f)) hdr
        ([] :: splitLines f) t sc subj
        (by rw [htrimB, hsplitB]) hne htrimh hmatch
      rw [← hB] at hp
      exact ⟨_, hp, rfl, rfl, rfl, fun hrt => False.elim hrt⟩
  · obtain ⟨hb1, hb2⟩ := hb
    rcases footer with _ | f
    · have hB : buildCommitMessage t sc subj (some b) none =
          hdr ++ '\n' :: ('\n' :: b) := by
        rw [hbuild]
        simp [truthy, List.isEmpty_iff, hb1]
      have hsplitB : splitLines (hdr ++ '\n' :: ('\n' :: b)) =
          hdr :: [] :: splitLines b := by
        rw [splitLines_append_nl hdr ('\n' :: b), hsplith, splitLines_cons_nl b]
        rfl
      have htrimB : trimL (hdr ++ '\n' :: ('\n' :: b)) =
          hdr ++ '\n' :: ('\n' :: b) := by
        apply trimL_eq_self_of_ends
        · intro c hc
          rw [head?_append_left hdr _ hne] at hc
          exact hheadws c hc
        · intro c hc
          rw [show hdr ++ '\n' :: ('\n' :: b) = (hdr ++ ['\n', '\n']) ++ b
            by simp] at hc
          rw [getLast?_append_right _ b hb1] at hc
          exact last_not_ws_of_dropTrail b (dropTrail_of_trimmed b hb2) c hc
      have hp := parse_decomp (hdr ++ '\n' :: ('\n' :: b)) hdr
        ([] :: splitLines b) t sc subj
        (by rw [htrimB, hsplitB]) hne htrimh hmatch
      rw [← hB] at hp
      refine ⟨_, hp, rfl, rfl, rfl, fun hrt => ?_⟩
      have hbf := parseBodyFooter_body_only b hb1 hb2 hrt
      exact ⟨by rw [hbf], by rw [hbf]⟩
    · obtain ⟨hf1, hf2⟩ := hf
      have hB : buildCommitMessage t sc subj (some b) (some f) =
          hdr ++ '\n' :: ('\n' :: (b ++ '\n' :: ('\n' :: f))) := by
        rw [hbuild]
        simp [truthy, List.isEmpty_iff, hb1, hf1]
      have hsplitB :
          splitLines (hdr ++ '\n' :: ('\n' :: (b ++ '\n' :: ('\n' :: f)))) =
            hdr :: [] :: (splitLines b ++ [] :: splitLines f) := by
        rw [splitLines_append_nl hdr ('\n' :: (b ++ '\n' :: ('\n' :: f))),
          hsplith, splitLines_cons_nl (b ++ '\n' :: ('\n' :: f)),
          splitLines_append_nl b ('\n' :: f), splitLines_cons_nl f]
        rfl
      have htrimB :
          trimL (hdr ++ '\n' :: ('\n' :: (b ++ '\n' :: ('\n' :: f)))) =
            hdr ++ '\n' :: ('\n' :: (b ++ '\n' :: ('\n' :: f))) := by
        apply trimL_eq_self_of_ends
        · intro c hc
          rw [head?_append_left hdr _ hne] at hc
          exact hheadws c hc
        · intro c hc
          rw [show hdr ++ '\n' :: ('\n' :: (b ++ '\n' :: ('\n' :: f))) =
            ((hdr ++ ['\n', '\n']) ++ b ++ ['\n', '\n']) ++ f by simp] at hc
          rw [getLast?_append_right _ f hf1] at hc
          exact last_not_ws_of_dropTrail f (dropTrail_of_trimmed f hf2) c hc
      have hp := parse_decomp
        (hdr ++ '\n' :: ('\n' :: (b ++ '\n' :: ('\n' :: f)))) hdr
        ([] :: (splitLines b ++ [] :: splitLines f)) t sc subj
        (by rw [htrimB, hsplitB]) hne htrimh hmatch
      rw [← hB] at hp
      refine ⟨_, hp, rfl, rfl, rfl, fun hrt => ?_⟩
      have hbf := parseBodyFooter_body_footer b f hb1 hb2 hf1 hf2 hrt.1 hrt.2
      exact ⟨by rw [hbf], by rw [hbf]⟩

/-- C1 witness: a concrete scoped message with body and footer whose footer
starts with the Closes marker round-trips through build and parse. -/
theorem roundtrip_amended_witness :
    ∃ p, parseCommitMessage (buildCommitMessage ("fix".data)
        (some ("auth".data)) ("fix login bug".data)
        (some ("Details here.".data)) (some ("Closes #123".data))) = some p ∧
      p.type = ("fix".data) ∧ p.scope = some ("auth".data) ∧
      p.subject = ("fix login bug".data) ∧
      (roundTripBF (some ("Details here.".data)) (some ("Closes #123".data)) →
        p.body = some ("Details here.".data) ∧
        p.footer = some ("Closes #123".data)) :=
  roundtrip_amended ("fix".data) (some ("auth".data)) ("fix login bug".data)
    (some ("Details here.".data)) (some ("Closes #123".data))
    (by exact ⟨by decide, by decide⟩) (by exact ⟨by decide, by decide⟩)
    (by exact ⟨by decide, by decide, by decide⟩)
    (by exact ⟨by decide, by decide⟩) (by exact ⟨by decide, by decide⟩)


/-! ## C6: footer classification is conditional on position -/

theorem parseBodyFooter_snd_pos (rest : List (List Char)) (idx : Nat)
    (hidx : findFirstIdx isFooterLine (rest.dropWhile isBlankLine) = some idx)
    (hpos : 0 < idx) :
    (parseBodyFooter rest).2 =
      toOpt (trimL (joinLines ((rest.dropWhile isBlankLine).drop idx))) := by
  unfold parseBodyFooter
  simp only [hidx]
  rw [if_pos hpos]

theorem parseBodyFooter_snd_zero (rest : List (List Char))
    (hidx : findFirstIdx isFooterLine (rest.dropWhile isBlankLine) = some 0) :
    (parseBodyFooter rest).2 = none := by
  unfold parseBodyFooter
  simp only [hidx]
  rw [if_neg (by omega)]

theorem parseBodyFooter_snd_none (rest : List (List Char))
    (hidx : findFirstIdx isFooterLine (rest.dropWhile isBlankLine) = none) :
    (parseBodyFooter rest).2 = none := by
  unfold parseBodyFooter
  simp only [hidx]

/-- C6 counterexample: in "fix: x" followed by a blank line and "Closes #123"
the marker line is the first non-blank line after the header, so the parser
files it under the body and returns an absent footer, against the claim that
a footer-marker line always starts a footer. -/
theorem footer_unconditional_counterexample :
    isFooterLine ("Closes #123".data) = true ∧
    splitLines (trimL ("fix: x\n\nCloses #123".data)) =
      [("fix: x".data), [], ("Closes #123".data)] ∧
    (parseCommitMessage ("fix: x\n\nCloses #123".data)).map CommitMessage.footer
      = some none :=
  ⟨rfl, rfl, rfl⟩

/-- C6 (amended): for every raw message that parses, with rest2 the lines
after the header stripped of leading blank lines, the footer is present
exactly when the first footer-marker line of rest2 sits at a positive index
idx, and then consists of the trimmed joined lines from idx on; when the
first marker line is at index 0 or no marker line exists, the footer is
absent. -/
theorem footer_conditional_amended (raw : List Char) (p : CommitMessage)
    (rest2 : List (List Char))
    (h2 : rest2 = ((splitLines (trimL raw)).drop 1).dropWhile isBlankLine)
    (hp : parseCommitMessage raw = some p) :
    (∀ idx, findFirstIdx isFooterLine rest2 = some idx →
      (0 < idx →
        p.footer = toOpt (trimL (joinLines (rest2.drop idx)))) ∧
      (idx = 0 → p.footer = none)) ∧
    (findFirstIdx isFooterLine rest2 = none → p.footer = none) := by
  unfold parseCommitMessage at hp
  rcases hsp : splitLines (trimL raw) with _ | ⟨l0, rest⟩
  · rw [hsp] at hp
    exact absurd hp (by simp)
  · simp only [hsp] at hp
    by_cases h0 : l0.isEmpty = true
    · rw [if_pos h0] at hp
      exact absurd hp (by simp)
    · rw [if_neg h0] at hp
      rcases hm : matchHeader (trimL l0) with _ | ⟨t, sc, subj⟩
      · simp only [hm] at hp
        exact absurd hp (by simp)
      · simp only [hm] at hp
        have hpe : (⟨t, sc, subj, (parseBodyFooter rest).1,
            (parseBodyFooter rest).2, raw⟩ : CommitMessage)
            = p := Option.some.inj hp
        have hfoot : p.footer = (parseBodyFooter rest).2 := by
          rw [← hpe]
        have hr2 : rest2 = rest.dropWhile isBlankLine := by
          rw [h2, hsp]
          simp
        subst hr2
        refine ⟨fun idx hidx => ⟨fun hpos => ?_, fun hzero => ?_⟩,
          fun hnone => ?_⟩
        · rw [hfoot]
          exact parseBodyFooter_snd_pos rest idx hidx hpos
        · rw [hfoot]
          rw [hzero] at hidx
          exact parseBodyFooter_snd_zero rest hidx
        · rw [hfoot]
          exact parseBodyFooter_snd_none rest hnone

/-- C6 witness: a message with a real body paragraph before the "Closes"
line keeps its footer, at marker index 2 of the stripped line list. -/
theorem footer_conditional_amended_witness :
    (CommitMessage.mk ("fix".data) none ("a".data) (some ("Details".data))
        (some ("Closes #1".data)) ("fix: a\n\nDetails\n\nCloses #1".data)).footer
      = toOpt (trimL (joinLines
        ([("Details".data), [], ("Closes #1".data)].drop 2))) :=
  ((footer_conditional_amended ("fix: a\n\nDetails\n\nCloses #1".data)
    (CommitMessage.mk ("fix".data) none ("a".data) (some ("Details".data))
      (some ("Closes #1".data)) ("fix: a\n\nDetails\n\nCloses #1".data))
    ([("Details".data), [], ("Closes #1".data)]) (by rfl) (by rfl)).1
    2 (by rfl)).1 (by decide)


/-! ## C8: AI response parsing -/

/-- C8 counterexample: a response whose JSON parses and contains both the
type and subject keys, with type bound to the empty string, still fails with
the missing-required-fields error: success needs truthy fields, not merely
present ones. -/
theorem ai_parse_counterexample :
    jsonParse (extractJson ("\x7b\"type\":\"\",\"subject\":\"x\"\x7d".data)) =
      some (JSValue.jobj [(("type".data), JSValue.jstr []),
        (("subject".data), JSValue.jstr ("x".data))]) ∧
    jsGet (JSValue.jobj [(("type".data), JSValue.jstr []),
        (("subject".data), JSValue.jstr ("x".data))]) ("type".data) =
      some (JSValue.jstr []) ∧
    parseAIResponse ("\x7b\"type\":\"\",\"subject\":\"x\"\x7d".data) =
      .error (parseFailMsg missingFieldsCause) :=
  ⟨rfl, rfl, rfl⟩

/-- C8 (amended): parseAIResponse extracts the JSON text (directly or from
the first fenced block), and on the parsed value succeeds exactly when both
the type and the subject fields are truthy, lower-casing the type, coercing
truthy optional fields to text and mapping absent or falsy optional fields
to an absent value; a JSON syntax failure and a missing or falsy required
field produce the two distinct descriptive errors. -/
theorem ai_parse_amended (content : List Char) :
    (jsonParse (extractJson content) = none →
      parseAIResponse content = .error (parseFailMsg jsonSyntaxCause)) ∧
    (∀ v, jsonParse (extractJson content) = some v →
      ((optTruthy (jsGet v ("type".data)) = true ∧
        optTruthy (jsGet v ("subject".data)) = true) →
        parseAIResponse content = .ok
          ⟨toLowerL (jsToString ((jsGet v ("type".data)).getD .jnull)),
           (if optTruthy (jsGet v ("scope".data)) = true then
              some (jsToString ((jsGet v ("scope".data)).getD .jnull))
            else none),
           jsToString ((jsGet v ("subject".data)).getD .jnull),
           (if optTruthy (jsGet v ("body".data)) = true then
              some (jsToString ((jsGet v ("body".data)).getD .jnull))
            else none),
           (if optTruthy (jsGet v ("reasoning".data)) = true then
              some (jsToString ((jsGet v ("reasoning".data)).getD .jnull))
            else none)⟩) ∧
      ((optTruthy (jsGet v ("type".data)) = false ∨
        optTruthy (jsGet v ("subject".data)) = false) →
        parseAIResponse content = .error (parseFailMsg missingFieldsCause))) ∧
    parseFailMsg jsonSyntaxCause ≠ parseFailMsg missingFieldsCause := by
  refine ⟨fun hn => ?_, fun v hv => ⟨fun hok => ?_, fun hbad => ?_⟩, by decide⟩
  · unfold parseAIResponse
    simp only [hn]
  · unfold parseAIResponse
    simp only [hv]
    rw [if_neg (by simp [hok.1, hok.2])]
  · unfold parseAIResponse
    simp only [hv]
    rcases hbad with h | h
    · rw [if_pos (by simp [h])]
    · rw [if_pos (by simp [h])]

/-- C8 witness: the upper-case type FIX with subject x parses to the
normalized commit fix / x with all optional fields absent. -/
theorem ai_parse_amended_witness :
    parseAIResponse ("\x7b\"type\":\"FIX\",\"subject\":\"x\"\x7d".data) =
      .ok ⟨("fix".data), none, ("x".data), none, none⟩ := by
  have h := ((ai_parse_amended
    ("\x7b\"type\":\"FIX\",\"subject\":\"x\"\x7d".data)).2.1
    (JSValue.jobj [(("type".data), JSValue.jstr ("FIX".data)),
      (("subject".data), JSValue.jstr ("x".data))]) rfl).1 ⟨rfl, rfl⟩
  rw [h]
  have e1 : jsGet (JSValue.jobj [(("type".data), JSValue.jstr ("FIX".data)),
      (("subject".data), JSValue.jstr ("x".data))]) ("type".data) =
    some (JSValue.jstr ("FIX".data)) := rfl
  have e2 : jsGet (JSValue.jobj [(("type".data), JSValue.jstr ("FIX".data)),
      (("subject".data), JSValue.jstr ("x".data))]) ("subject".data) =
    some (JSValue.jstr ("x".data)) := rfl
  have e3 : jsGet (JSValue.jobj [(("type".data), JSValue.jstr ("FIX".data)),
      (("subject".data), JSValue.jstr ("x".data))]) ("scope".data) = none := rfl
  have e4 : jsGet (JSValue.jobj [(("type".data), JSValue.jstr ("FIX".data)),
      (("subject".data), JSValue.jstr ("x".data))]) ("body".data) = none := rfl
  have e5 : jsGet (JSValue.jobj [(("type".data), JSValue.jstr ("FIX".data)),
      (("subject".data), JSValue.jstr ("x".data))]) ("reasoning".data) =
    none := rfl
  simp only [e1, e2, e3, e4, e5, Option.getD_some, jsToString]
  rfl

end GitCommitChecker
